import Mathlib

/-
A shallow embedding of the kayak_ui event dispatch and focus-resolution
subsystem, translated from:
  src/kayak_core/src/event_dispatcher.rs  (EventDispatcher)
  src/kayak_core/src/event.rs             (Event, EventType)
  src/kayak_core/src/cursor.rs            (PointerEvents)
Collaborator modules that are not among the reviewed sources
(widget_manager.rs, focus_tree.rs, input_event.rs, layout_cache.rs,
keyboard.rs, render_command.rs, flo_binding) are modelled from the
specification; each such definition carries a doc comment starting with
"Modelled from the spec:".

Modelling conventions:
- machine integers (isize depth) are Int; node identifiers are Nat;
- f32 coordinates and z-indices are modelled as Int (the dispatcher only
  compares them); the f32::NEG_INFINITY initial best z-index is modelled
  as the `none` case of an `Option Int`, with comparisons that treat
  `none` as smaller than every integer;
- Rust HashMap<Index, HashSet<EventType>> is a list of (Index, EventType)
  pairs treated as a set (the code only inserts, tests membership and
  iterates); HashMap<EventType, EventState> is an association list with
  unique keys kept in insertion order;
- a Rust panic (the .unwrap() calls on widget-store lookups) is the
  `none` result of an `Option`-returning function;
- loops whose bound is not structural (the tree walk, event propagation,
  the recursive dispatch entered from the Tab default action) take a
  fuel argument; fuel exhaustion also returns `none` / cuts recursion.
-/

namespace Kayak

/-- Modelled from the spec: NodeId, an opaque stable identifier for a widget
instance in the tree (kayak_core's generational `Index`). -/
abbrev Index := Nat

/-- Modelled from the spec: the modifier snapshot {ctrl, shift, alt, meta}
(kayak_core::keyboard::KeyboardModifiers, not among the reviewed sources). -/
structure KeyboardModifiers where
  is_ctrl_pressed : Bool := false
  is_shift_pressed : Bool := false
  is_alt_pressed : Bool := false
  is_meta_pressed : Bool := false
deriving DecidableEq, Repr

/-- Modelled from the spec: key codes. Only the codes the dispatcher matches
on are distinguished (Tab for the default action, the left/right modifier
keys); `Other n` stands for every remaining code. -/
inductive KeyCode where
  | Tab
  | LControl
  | RControl
  | LShift
  | RShift
  | LAlt
  | RAlt
  | LWin
  | RWin
  | Other (code : Nat)
deriving DecidableEq, Repr

/-- Modelled from the spec: KeyInfo, a key code plus the modifier snapshot
captured at the instant of the underlying hardware event. -/
structure KeyboardEvent where
  key : KeyCode
  modifiers : KeyboardModifiers
deriving DecidableEq, Repr

def KeyboardEvent.new (key : KeyCode) (modifiers : KeyboardModifiers) : KeyboardEvent :=
  { key := key, modifiers := modifiers }

def KeyboardEvent.is_shift_pressed (e : KeyboardEvent) : Bool :=
  e.modifiers.is_shift_pressed

/-- The event kinds, from src/kayak_core/src/event.rs (enum EventType). -/
inductive EventType where
  | Click
  | Hover
  | MouseIn
  | MouseOut
  | MouseDown
  | MouseUp
  | Focus
  | Blur
  | CharInput (c : Char)
  | KeyUp (e : KeyboardEvent)
  | KeyDown (e : KeyboardEvent)
deriving DecidableEq, Repr

/-- Event categories, from src/kayak_core/src/event.rs (enum EventCategory). -/
inductive EventCategory where
  | Mouse
  | Keyboard
  | Focus
deriving DecidableEq, Repr

/-- Whether an event type propagates by default, from
src/kayak_core/src/event.rs (EventType::propagates). -/
def EventType.propagates : EventType → Bool
  | .Hover => true
  | .Click => true
  | .MouseDown => true
  | .MouseUp => true
  | .CharInput _ => true
  | .KeyUp _ => true
  | .KeyDown _ => true
  | .MouseIn => false
  | .MouseOut => false
  | .Focus => false
  | .Blur => false

/-- The category of an event type, from src/kayak_core/src/event.rs
(EventType::event_category). -/
def EventType.event_category : EventType → EventCategory
  | .Hover => .Mouse
  | .Click => .Mouse
  | .MouseDown => .Mouse
  | .MouseUp => .Mouse
  | .MouseIn => .Mouse
  | .MouseOut => .Mouse
  | .CharInput _ => .Keyboard
  | .KeyUp _ => .Keyboard
  | .KeyDown _ => .Keyboard
  | .Focus => .Focus
  | .Blur => .Focus

/-- The semantic event, from src/kayak_core/src/event.rs (struct Event). -/
structure Event where
  target : Index
  current_target : Index
  event_type : EventType
  should_propagate : Bool
  default_prevented : Bool
deriving DecidableEq, Repr

/-- Event construction, from src/kayak_core/src/event.rs (Event::new):
propagation is derived from the event type, default_prevented starts false. -/
def Event.new (target : Index) (event_type : EventType) : Event :=
  { target := target
    current_target := target
    event_type := event_type
    should_propagate := event_type.propagates
    default_prevented := false }

/-- Modelled from the spec: the coarse category of a raw input event
(kayak_core's InputEventCategory, not among the reviewed sources). -/
inductive InputEventCategory where
  | Mouse
  | Keyboard
deriving DecidableEq, Repr

/-- Modelled from the spec: the closed set of raw input events per tick
(kayak_core's InputEvent, not among the reviewed sources): pointer moved,
pointer primary press/release, key event, char event. -/
inductive InputEvent where
  | MouseMoved (point : Int × Int)
  | MouseLeftPress
  | MouseLeftRelease
  | Keyboard (key : KeyCode) (is_pressed : Bool)
  | CharEvent (c : Char)
deriving DecidableEq, Repr

/-- Modelled from the spec: the category of a raw input event (pointer
events are Mouse, key and char events are Keyboard). -/
def InputEvent.category : InputEvent → InputEventCategory
  | .MouseMoved _ => .Mouse
  | .MouseLeftPress => .Mouse
  | .MouseLeftRelease => .Mouse
  | .Keyboard _ _ => .Keyboard
  | .CharEvent _ => .Keyboard

/-- The pointer-events policy, from src/kayak_core/src/cursor.rs
(enum PointerEvents). -/
inductive PointerEvents where
  | All
  | SelfOnly
  | ChildrenOnly
  | None
deriving DecidableEq, Repr

/-- The default pointer-events policy is All, from
src/kayak_core/src/cursor.rs (impl Default for PointerEvents). -/
def PointerEvents.default : PointerEvents := PointerEvents.All

/-- Modelled from the spec: the resolved render intent of a widget
(kayak_core's RenderCommand, not among the reviewed sources). Only the
three non-visual intents matched by can_contain_cursor are distinguished;
`Quad` stands for every visual intent. -/
inductive RenderCommand where
  | Empty
  | Layout
  | Clip
  | Quad
deriving DecidableEq, Repr

/-- Modelled from the spec: the resolved style of a widget, exposing the
pointer_events policy and the render intent (the two style fields the
dispatcher reads; `.resolve()` is the identity here because the model
stores resolved values). -/
structure Styles where
  pointer_events : PointerEvents
  render_command : RenderCommand
deriving DecidableEq, Repr

/-- Modelled from the spec: a widget as seen by the dispatcher, reduced to
its optional resolved styles (Widget::get_styles). -/
structure Widget where
  get_styles : Option Styles
deriving DecidableEq, Repr

/-- Modelled from the spec: the layout rectangle with z-index produced by
the layout provider (kayak_core's layout_cache::Rect, not among the
reviewed sources). -/
structure Rect where
  posx : Int
  posy : Int
  width : Int
  height : Int
  z_index : Int
deriving DecidableEq, Repr

/-- Modelled from the spec: point-in-rect containment against the layout
rectangle (Rect::contains, both edges inclusive). -/
def Rect.contains (r : Rect) (point : Int × Int) : Bool :=
  (r.posx ≤ point.1 && point.1 ≤ r.posx + r.width)
    && (r.posy ≤ point.2 && point.2 ≤ r.posy + r.height)

/-- Modelled from the spec: the focus ring (kayak_core's focus_tree, not
among the reviewed sources) — an ordered cyclic sequence of focusable node
identifiers in stable registration order, plus the current focus. -/
structure FocusTree where
  ring : List Index
  current_focus : Option Index
deriving DecidableEq, Repr

/-- Modelled from the spec: current() returns the focused node, if any. -/
def FocusTree.current (ft : FocusTree) : Option Index :=
  ft.current_focus

/-- Modelled from the spec: focus(id) commits focus to a registered
focusable node; focusing a node that is not registered is a no-op. -/
def FocusTree.focus (ft : FocusTree) (id : Index) : FocusTree :=
  if id ∈ ft.ring then { ft with current_focus := some id } else ft

/-- Modelled from the spec: blur() clears the current focus; blurring when
nothing is focused is a no-op. -/
def FocusTree.blur (ft : FocusTree) : FocusTree :=
  { ft with current_focus := none }

/-- Modelled from the spec: next() cycles forward through the ring in
registration order, wrapping around; if nothing is focused it selects the
first registered node. It is a query; the change is committed by focus(). -/
def FocusTree.next (ft : FocusTree) : Option Index :=
  match ft.current_focus with
  | none => ft.ring.head?
  | some c =>
    match ft.ring.findIdx? (fun x => x = c) with
    | some i => ft.ring.get? ((i + 1) % ft.ring.length)
    | none => ft.ring.head?

/-- Modelled from the spec: prev() cycles backward through the ring,
wrapping around; if nothing is focused it selects the last registered
node. It is a query; the change is committed by focus(). -/
def FocusTree.prev (ft : FocusTree) : Option Index :=
  match ft.current_focus with
  | none => ft.ring.getLast?
  | some c =>
    match ft.ring.findIdx? (fun x => x = c) with
    | some i => ft.ring.get? ((i + ft.ring.length - 1) % ft.ring.length)
    | none => ft.ring.getLast?

/-- Modelled from the spec: the widget manager as consumed by the
dispatcher (widget_manager.rs is not among the reviewed sources). The
tree exposes root/children/parent; the widget store lookup
current_widgets.get(node) yields an outer Option (absent arena slot, which
the dispatcher's call sites unwrap) around an inner Option (a present but
empty slot, which the call sites match and skip); get_layout and
get_focusable are Option-returning lookups. -/
structure WidgetManager where
  root_node : Option Index
  children : Index → Option (List Index)
  parent : Index → Option Index
  current_widgets : Index → Option (Option Widget)
  get_layout : Index → Option Rect
  get_focusable : Index → Option Bool
  focus_tree : FocusTree

/-- Modelled from the spec: the context handle passed to widget handlers,
carrying the widget manager (KayakContext, not among the reviewed
sources). -/
structure KayakContext where
  widget_manager : WidgetManager

/-- Modelled from the spec: what a widget handler may do to the event copy
it receives — call stop_propagation and/or prevent_default (the public
Event API from src/kayak_core/src/event.rs). -/
structure HandlerCalls where
  stop_propagation : Bool
  prevent_default : Bool
deriving DecidableEq, Repr

/-- Modelled from the spec: the widget invocation boundary. A handler gets
the context and the per-node event copy, may mutate the context (tree
mutation, re-render) and reports which of the two event API calls it
made. -/
def Handler := KayakContext → Event → KayakContext × HandlerCalls

/-- The per-kind best-match state, from
src/kayak_core/src/event_dispatcher.rs (struct EventState). best_z_index
`none` models the f32::NEG_INFINITY initial value. -/
structure EventState where
  best_z_index : Option Int
  best_match : Option Index
  best_depth : Int
deriving DecidableEq, Repr

/-- The initial best-match state, from impl Default for EventState:
z-index negative infinity, no match, depth -1. -/
def EventState.default : EventState :=
  { best_z_index := none, best_match := none, best_depth := -1 }

/-- z ≥ best, where best may be the negative-infinity initial value. -/
def z_ge (z : Int) (best : Option Int) : Bool :=
  match best with
  | none => true
  | some b => b ≤ z

/-- z > best, where best may be the negative-infinity initial value. -/
def z_gt (z : Int) (best : Option Int) : Bool :=
  match best with
  | none => true
  | some b => b < z

/-- The per-cycle map from event kind to best-match state
(HashMap<EventType, EventState>), as an association list with unique keys
in insertion order. -/
abbrev StatesMap := List (EventType × EventState)

def lookup_state : StatesMap → EventType → Option EventState
  | [], _ => none
  | (t', s) :: rest, t => if t' = t then some s else lookup_state rest t

def get_state (states : StatesMap) (t : EventType) : EventState :=
  match lookup_state states t with
  | some s => s
  | none => EventState.default

def set_state : StatesMap → EventType → EventState → StatesMap
  | [], t, s => [(t, s)]
  | (t', s') :: rest, t, s =>
    if t' = t then (t, s) :: rest else (t', s') :: set_state rest t s

/-- The persistent per-node event map (HashMap<Index, HashSet<EventType>>),
as a set of (node, event type) pairs. -/
abbrev EventMap := List (Index × EventType)

/-- Insert an event for a widget, from EventDispatcher::insert_event
(entry().or_insert().insert(): a set insertion). -/
def insert_event (events : EventMap) (widget_id : Index) (event_type : EventType) : EventMap :=
  if (widget_id, event_type) ∈ events then events else (widget_id, event_type) :: events

/-- Membership test, from EventDispatcher::contains_event. -/
def contains_event (events : EventMap) (widget_id : Index) (event_type : EventType) : Bool :=
  decide ((widget_id, event_type) ∈ events)

/-- The dispatcher state, from src/kayak_core/src/event_dispatcher.rs
(struct EventDispatcher). The last_clicked Binding is modelled as the
stored value of the observable cell (set replaces it). -/
structure EventDispatcher where
  is_mouse_pressed : Bool
  current_mouse_position : Int × Int
  next_mouse_position : Int × Int
  previous_events : EventMap
  keyboard_modifiers : KeyboardModifiers
  last_clicked : Index
  contains_cursor : Option Bool
  wants_cursor : Option Bool
  has_cursor : Option Index
deriving DecidableEq, Repr

/-- The initial dispatcher, from EventDispatcher::new. -/
def EventDispatcher.new : EventDispatcher :=
  { is_mouse_pressed := false
    current_mouse_position := (0, 0)
    next_mouse_position := (0, 0)
    previous_events := []
    keyboard_modifiers := {}
    last_clicked := 0
    contains_cursor := none
    wants_cursor := none
    has_cursor := none }

/-- Cursor-containment eligibility, from
EventDispatcher::can_contain_cursor: the resolved render command is none
of Empty, Layout, Clip; a widget without styles is not eligible. -/
def can_contain_cursor (widget : Widget) : Bool :=
  match widget.get_styles with
  | some styles =>
    !(styles.render_command = RenderCommand.Empty
        || styles.render_command = RenderCommand.Layout
        || styles.render_command = RenderCommand.Clip)
  | none => false

/-- The best-match update rule, from EventDispatcher::update_state: the
candidate replaces the current best iff (depth ≥ best_depth and z-index ≥
best z-index) or z-index > best z-index. -/
def update_state (states : StatesMap) (tree_node : Index × Int) (layout : Rect)
    (event_type : EventType) : StatesMap :=
  let state := get_state states event_type
  let node := tree_node.1
  let depth := tree_node.2
  let should_update :=
    (decide (state.best_depth ≤ depth) && z_ge layout.z_index state.best_z_index)
      || z_gt layout.z_index state.best_z_index
  if should_update then
    set_state states event_type
      { best_z_index := some layout.z_index, best_match := some node, best_depth := depth }
  else
    set_state states event_type state

/-- The result of per-node pointer processing: the updated dispatcher, the
updated best-match states and the emitted events. -/
structure PPEResult where
  dispatcher : EventDispatcher
  states : StatesMap
  events : List Event
deriving Repr

/-- Per-node pointer processing, from
EventDispatcher::process_pointer_events. A `none` result is the panic of
the .unwrap() on an absent widget-store slot (lines 329 and 369 of
event_dispatcher.rs). -/
def process_pointer_events (disp : EventDispatcher) (input_event : InputEvent)
    (tree_node : Index × Int) (states : StatesMap) (wm : WidgetManager) : Option PPEResult :=
  let node := tree_node.1
  let depth := tree_node.2
  match input_event with
  | InputEvent.MouseMoved point =>
    -- The Rust code stores the pending mouse position once, after the
    -- if-let on the layout; the model writes that same field in each of
    -- the two layout branches.
    match wm.get_layout node with
    | some layout =>
      let was_contained := layout.contains disp.current_mouse_position
      let is_contained := layout.contains point
      let events :=
        if was_contained ≠ is_contained then
          if was_contained then [Event.new node EventType.MouseOut]
          else [Event.new node EventType.MouseIn]
        else []
      let contains_step : Option (Option Bool) :=
        if disp.contains_cursor.isNone || !(disp.contains_cursor.getD false) then
          match wm.current_widgets node with
          | none => none
          | some owidget =>
            match owidget with
            | some widget =>
              if can_contain_cursor widget then some (some is_contained)
              else some disp.contains_cursor
            | none => some disp.contains_cursor
        else some disp.contains_cursor
      match contains_step with
      | none => none
      | some contains_cursor1 =>
        let wants_cursor1 :=
          if disp.wants_cursor.isNone || !(disp.wants_cursor.getD false) then
            if wm.get_focusable node = some true then some is_contained
            else disp.wants_cursor
          else disp.wants_cursor
        let states1 :=
          if is_contained then update_state states (node, depth) layout EventType.Hover
          else states
        some ⟨{ disp with
                  contains_cursor := contains_cursor1
                  wants_cursor := wants_cursor1
                  next_mouse_position := point },
              states1, events⟩
    | none => some ⟨{ disp with next_mouse_position := point }, states, []⟩
  | InputEvent.MouseLeftPress =>
    let disp1 := { disp with is_mouse_pressed := true }
    match wm.get_layout node with
    | some layout =>
      if layout.contains disp1.current_mouse_position then
        let events := [Event.new node EventType.MouseDown]
        let states1 :=
          if wm.get_focusable node = some true then
            update_state states (node, depth) layout EventType.Focus
          else states
        let cursor_step : Option (Option Index) :=
          if disp1.has_cursor.isNone then
            match wm.current_widgets node with
            | none => none
            | some owidget =>
              match owidget with
              | some widget =>
                if can_contain_cursor widget then some (some node) else some disp1.has_cursor
              | none => some disp1.has_cursor
          else some disp1.has_cursor
        match cursor_step with
        | none => none
        | some has_cursor1 => some ⟨{ disp1 with has_cursor := has_cursor1 }, states1, events⟩
      else some ⟨disp1, states, []⟩
    | none => some ⟨disp1, states, []⟩
  | InputEvent.MouseLeftRelease =>
    let disp1 := { disp with is_mouse_pressed := false, has_cursor := none }
    match wm.get_layout node with
    | some layout =>
      if layout.contains disp1.current_mouse_position then
        let events := [Event.new node EventType.MouseUp]
        let disp2 := { disp1 with last_clicked := node }
        let states1 :=
          if contains_event disp2.previous_events node EventType.MouseDown then
            update_state states (node, depth) layout EventType.Click
          else states
        some ⟨disp2, states1, events⟩
      else some ⟨disp1, states, []⟩
    | none => some ⟨disp1, states, []⟩
  | _ => some ⟨disp, states, []⟩

/-- Modifier bookkeeping, from the modifiers match inside
EventDispatcher::process_keyboard_events. -/
def modifier_update (mods : KeyboardModifiers) (key : KeyCode) (is_pressed : Bool) :
    KeyboardModifiers :=
  match key with
  | KeyCode.LControl => { mods with is_ctrl_pressed := is_pressed }
  | KeyCode.RControl => { mods with is_ctrl_pressed := is_pressed }
  | KeyCode.LShift => { mods with is_shift_pressed := is_pressed }
  | KeyCode.RShift => { mods with is_shift_pressed := is_pressed }
  | KeyCode.LAlt => { mods with is_alt_pressed := is_pressed }
  | KeyCode.RAlt => { mods with is_alt_pressed := is_pressed }
  | KeyCode.LWin => { mods with is_meta_pressed := is_pressed }
  | KeyCode.RWin => { mods with is_meta_pressed := is_pressed }
  | _ => mods

/-- Keyboard processing, from EventDispatcher::process_keyboard_events:
everything, including modifier bookkeeping, happens only when some widget
holds the focus. -/
def process_keyboard_events (disp : EventDispatcher) (input_event : InputEvent)
    (wm : WidgetManager) : EventDispatcher × List Event :=
  match wm.focus_tree.current with
  | some current_focus =>
    match input_event with
    | InputEvent.CharEvent c => (disp, [Event.new current_focus (EventType.CharInput c)])
    | InputEvent.Keyboard key is_pressed =>
      let mods := modifier_update disp.keyboard_modifiers key is_pressed
      let disp1 := { disp with keyboard_modifiers := mods }
      if is_pressed then
        (disp1, [Event.new current_focus (EventType.KeyDown (KeyboardEvent.new key mods))])
      else
        (disp1, [Event.new current_focus (EventType.KeyUp (KeyboardEvent.new key mods))])
    | _ => (disp, [])
  | none => (disp, [])

/-- Resolving a node's pointer-events policy during the tree walk, from
lines 214-220 of event_dispatcher.rs: default All; the widget-store slot
lookup is unwrapped (`none` here is that panic); a present-but-empty slot
or a widget without styles keeps the default. -/
def resolve_pointer_events (wm : WidgetManager) (current : Index) : Option PointerEvents :=
  match wm.current_widgets current with
  | none => none
  | some owidget =>
    some (match owidget with
      | some widget =>
        match widget.get_styles with
        | some styles => styles.pointer_events
        | none => PointerEvents.default
      | none => PointerEvents.default)

/-- The outcome of running all of a tick's raw inputs over one popped tree
node: updated dispatcher and states, events emitted for this node, the
enter_children flag, and whether process_pointer_events ran for this node
(instrumentation; `did_process` does not influence the computation). -/
structure NodeProcessResult where
  dispatcher : EventDispatcher
  states : StatesMap
  events : List Event
  enter_children : Bool
  did_process : Bool
deriving Repr

/-- The per-node body of the Phase 1 tree walk, from lines 211-240 of
event_dispatcher.rs: for each mouse-category raw input, resolve the
node's policy; All and SelfOnly process the node (SelfOnly also blocks
descent), None blocks descent without processing, ChildrenOnly skips
processing but still descends. -/
def process_node_inputs (wm : WidgetManager) (current : Index) (depth : Int) :
    List InputEvent → EventDispatcher → StatesMap → List Event → Bool → Bool →
    Option NodeProcessResult
  | [], disp, states, events, enter, did => some ⟨disp, states, events, enter, did⟩
  | input :: rest, disp, states, events, enter, did =>
    if input.category = InputEventCategory.Mouse then
      match resolve_pointer_events wm current with
      | none => none
      | some pe =>
        match pe with
        | PointerEvents.All =>
          match process_pointer_events disp input (current, depth) states wm with
          | none => none
          | some r =>
            process_node_inputs wm current depth rest r.dispatcher r.states
              (events ++ r.events) enter true
        | PointerEvents.SelfOnly =>
          match process_pointer_events disp input (current, depth) states wm with
          | none => none
          | some r =>
            process_node_inputs wm current depth rest r.dispatcher r.states
              (events ++ r.events) false true
        | PointerEvents.None =>
          process_node_inputs wm current depth rest disp states events false did
        | PointerEvents.ChildrenOnly =>
          process_node_inputs wm current depth rest disp states events enter did
    else
      process_node_inputs wm current depth rest disp states events enter did

/-- Pushing a node's children onto the walk stack, from lines 242-249 of
event_dispatcher.rs. The Rust stack pushes and pops at the vector's end;
the model's stack pops at the head, so pushing each child to the head in
list order reproduces the same visitation order (last child popped
first). An absent children entry pushes nothing. -/
def push_children (wm : WidgetManager) (current : Index) (depth : Int)
    (rest : List (Index × Int)) : List (Index × Int) :=
  match wm.children current with
  | some cs => cs.foldl (fun s c => (c, depth + 1) :: s) rest
  | none => rest

/-- The accumulated outcome of the Phase 1 tree walk. -/
structure WalkResult where
  dispatcher : EventDispatcher
  states : StatesMap
  stream : List Event
  processed : List Index
deriving Repr

/-- The Phase 1 depth-first tree walk over the explicit stack, from lines
205-250 of event_dispatcher.rs, with fuel for the unbounded loop.
`processed` is instrumentation recording the nodes for which
process_pointer_events ran. -/
def build_walk (wm : WidgetManager) (inputs : List InputEvent) :
    Nat → List (Index × Int) → EventDispatcher → StatesMap → List Event → List Index →
    Option WalkResult
  | _, [], disp, states, stream, processed => some ⟨disp, states, stream, processed⟩
  | 0, _ :: _, _, _, _, _ => none
  | Nat.succ f, (current, depth) :: rest, disp, states, stream, processed =>
    match process_node_inputs wm current depth inputs disp states [] true false with
    | none => none
    | some r =>
      let stack1 := if r.enter_children then push_children wm current depth rest else rest
      let processed1 := if r.did_process then processed ++ [current] else processed
      build_walk wm inputs f stack1 r.dispatcher r.states (stream ++ r.events) processed1

/-- The keyboard pass over all raw inputs, from lines 252-257 of
event_dispatcher.rs. -/
def process_keyboard_all (wm : WidgetManager) :
    List InputEvent → EventDispatcher → List Event → EventDispatcher × List Event
  | [], disp, stream => (disp, stream)
  | input :: rest, disp, stream =>
    let r := process_keyboard_events disp input wm
    process_keyboard_all wm rest r.1 (stream ++ r.2)

/-- The additional-events phase, from lines 259-280 of event_dispatcher.rs:
each accumulated best-match state with a winner appends one event of its
kind; a resolved Focus additionally appends a Blur for a different
previously focused node and commits the focus change to the ring. Returns
the updated manager, the extended stream, and the had_focus_event flag. -/
def additional_events : WidgetManager → StatesMap → List Event → Bool →
    WidgetManager × List Event × Bool
  | wm, [], stream, had => (wm, stream, had)
  | wm, (event_type, state) :: rest, stream, had =>
    match state.best_match with
    | some node =>
      let stream1 := stream ++ [Event.new node event_type]
      match event_type with
      | EventType.Focus =>
        let stream2 :=
          match wm.focus_tree.current with
          | some current_focus =>
            if current_focus ≠ node then stream1 ++ [Event.new current_focus EventType.Blur]
            else stream1
          | none => stream1
        additional_events { wm with focus_tree := wm.focus_tree.focus node } rest stream2 true
      | _ => additional_events wm rest stream1 had
    | none => additional_events wm rest stream had

/-- The outcome of one event-stream construction cycle. -/
structure BuildResult where
  dispatcher : EventDispatcher
  manager : WidgetManager
  stream : List Event
  processed : List Index

/-- Event-stream construction, from EventDispatcher::build_event_stream:
the mouse tree walk, the keyboard pass, best-match resolution, the
blur-on-miss rule for an unconsumed primary press, and the sticky cursor
tristate bookkeeping. A `none` result is a panic of one of the unwrapped
widget-store lookups (or walk fuel exhaustion). -/
def build_event_stream (fuel : Nat) (disp : EventDispatcher)
    (input_events : List InputEvent) (wm : WidgetManager) : Option BuildResult :=
  match wm.root_node with
  | none => some ⟨disp, wm, [], []⟩
  | some root =>
    let old_contains_cursor := disp.contains_cursor
    let old_wants_cursor := disp.wants_cursor
    let disp0 := { disp with contains_cursor := none, wants_cursor := none }
    match build_walk wm input_events fuel [(root, 0)] disp0 [] [] [] with
    | none => none
    | some w =>
      let kb := process_keyboard_all wm input_events w.dispatcher w.stream
      let ae := additional_events wm w.states kb.2 false
      let wm1 := ae.1
      let stream1 := ae.2.1
      let had_focus_event := ae.2.2
      let post :=
        if !had_focus_event && decide (InputEvent.MouseLeftPress ∈ input_events) then
          match wm1.focus_tree.current with
          | some current_focus =>
            ({ wm1 with focus_tree := wm1.focus_tree.blur },
             stream1 ++ [Event.new current_focus EventType.Blur])
          | none => (wm1, stream1)
        else (wm1, stream1)
      let disp1 := kb.1
      let disp2 := { disp1 with current_mouse_position := disp1.next_mouse_position }
      let disp3 :=
        if disp2.contains_cursor.isNone then
          { disp2 with contains_cursor := old_contains_cursor }
        else disp2
      let disp4 :=
        if disp3.wants_cursor.isNone then { disp3 with wants_cursor := old_wants_cursor }
        else disp3
      some ⟨disp4, post.1, post.2, w.processed⟩

/-- Applying a handler's API calls to the per-node event copy: the public
Event API can only clear should_propagate (stop_propagation) and only set
default_prevented (prevent_default), from src/kayak_core/src/event.rs. -/
def apply_handler_calls (e : Event) (calls : HandlerCalls) : Event :=
  { e with
    should_propagate := e.should_propagate && !calls.stop_propagation
    default_prevented := e.default_prevented || calls.prevent_default }

/-- The outcome of propagating one event up the tree: the context after
all handler calls, the next-cycle event-map additions, the event with its
accumulated default_prevented flag, and the trace of (visited node,
handler calls) pairs. -/
structure LoopResult where
  ctx : KayakContext
  next_events : EventMap
  event : Event
  trace : List (Index × HandlerCalls)

/-- The propagation loop for one event, from the while loop of
EventDispatcher::dispatch_events (lines 129-155): at each node a fresh
copy of the event is made, the node's entry is recorded into the
next-cycle map, the handler runs on the copy, default_prevented is OR-ed
back into the original, and the loop continues to the parent only if the
copy still propagates. Fuel bounds the unbounded parent chain. -/
def dispatch_loop (h : Handler) : Nat → KayakContext → EventMap → Event → Option Index →
    LoopResult
  | 0, ctx, nexts, event, _ => ⟨ctx, nexts, event, []⟩
  | Nat.succ _, ctx, nexts, event, none => ⟨ctx, nexts, event, []⟩
  | Nat.succ f, ctx, nexts, event, some index =>
    let node_event := { event with current_target := index }
    let nexts1 := insert_event nexts index node_event.event_type
    let hres := h ctx node_event
    let node_event1 := apply_handler_calls node_event hres.2
    let event1 := { event with
      default_prevented := event.default_prevented || node_event1.default_prevented }
    let next_target :=
      if node_event1.should_propagate then hres.1.widget_manager.parent index else none
    let r := dispatch_loop h f hres.1 nexts1 event1 next_target
    ⟨r.ctx, r.next_events, r.event, (index, hres.2) :: r.trace⟩

/-- The two events synthesized by the Tab default action, from lines
519-525 of event_dispatcher.rs: a Focus for the newly selected node first,
then a Blur for the previously focused node when it differs. -/
def tab_events (index : Index) (current_focus : Option Index) : List Event :=
  let events := [Event.new index EventType.Focus]
  match current_focus with
  | some current_focus =>
    if current_focus ≠ index then events ++ [Event.new current_focus EventType.Blur]
    else events
  | none => events

/-- The built-in default actions, from EventDispatcher::execute_default:
only KeyDown(Tab) acts — it queries the ring (prev with Shift held, next
otherwise), synthesizes the Focus/Blur events, commits the ring change,
and re-enters dispatch through `recur` (instantiated with the fueled
dispatch_events, making the nested cycle synchronous). -/
def execute_default_with
    (recur : EventDispatcher → KayakContext → List Event → EventDispatcher × KayakContext)
    (disp : EventDispatcher) (ctx : KayakContext) (event : Event) :
    EventDispatcher × KayakContext :=
  match event.event_type with
  | EventType.KeyDown evt =>
    match evt.key with
    | KeyCode.Tab =>
      let current_focus := ctx.widget_manager.focus_tree.current
      let index :=
        if evt.is_shift_pressed then ctx.widget_manager.focus_tree.prev
        else ctx.widget_manager.focus_tree.next
      match index with
      | some index =>
        let events := tab_events index current_focus
        let ctx1 := { ctx with widget_manager :=
          { ctx.widget_manager with focus_tree := ctx.widget_manager.focus_tree.focus index } }
        recur disp ctx1 events
      | none => (disp, ctx)
    | _ => (disp, ctx)
  | _ => (disp, ctx)

/-- Dispatching a single event, from the body of the for loop in
EventDispatcher::dispatch_events: propagate it, then run the default
action only when the accumulated default_prevented flag is still false. -/
def dispatch_one_with
    (recur : EventDispatcher → KayakContext → List Event → EventDispatcher × KayakContext)
    (h : Handler) (fuel : Nat) (disp : EventDispatcher) (ctx : KayakContext)
    (nexts : EventMap) (event : Event) : EventDispatcher × KayakContext × EventMap :=
  let r := dispatch_loop h fuel ctx nexts event (some event.target)
  if r.event.default_prevented then (disp, r.ctx, r.next_events)
  else
    let d := execute_default_with recur disp r.ctx r.event
    (d.1, d.2, r.next_events)

/-- The for loop over the produced events in
EventDispatcher::dispatch_events, threading the shared next-cycle map. -/
def dispatch_events_go
    (recur : EventDispatcher → KayakContext → List Event → EventDispatcher × KayakContext)
    (h : Handler) (fuel : Nat) :
    EventDispatcher → KayakContext → List Event → EventMap →
    EventDispatcher × KayakContext × EventMap
  | disp, ctx, [], nexts => (disp, ctx, nexts)
  | disp, ctx, event :: rest, nexts =>
    let r := dispatch_one_with recur h fuel disp ctx nexts event
    dispatch_events_go recur h fuel r.1 r.2.1 rest r.2.2

/-- The Phase 3 carry-forward, from lines 162-178 of
event_dispatcher.rs: for every (node, kind) pair of the previous cycle's
map, re-insert MouseDown while the mouse stays pressed, and re-insert
MouseIn unless this cycle recorded a MouseOut for the node. The MouseOut
test reads the accumulating map, exactly as the Rust code does; the loop
only ever inserts MouseDown and MouseIn, so the test's outcome does not
depend on iteration order. -/
def maintain_step (pressed : Bool) (acc : EventMap) (p : Index × EventType) : EventMap :=
  let acc1 :=
    if pressed && decide (p.2 = EventType.MouseDown) then
      insert_event acc p.1 EventType.MouseDown
    else acc
  if decide (p.2 = EventType.MouseIn) && !(contains_event acc1 p.1 EventType.MouseOut) then
    insert_event acc1 p.1 EventType.MouseIn
  else acc1

def maintain_events (pressed : Bool) (previous : EventMap) (nexts : EventMap) : EventMap :=
  previous.foldl (maintain_step pressed) nexts

/-- Event dispatch, from EventDispatcher::dispatch_events: dispatch every
event (running default actions as they complete), then rebuild the
persistent per-node map from this cycle's insertions plus the maintained
entries, replacing — never merging — the stored map. The fuel bounds the
recursion through the Tab default action; at fuel zero the nested
dispatch is cut. -/
def dispatch_events (h : Handler) : Nat → EventDispatcher → KayakContext → List Event →
    EventDispatcher × KayakContext
  | 0, disp, ctx, _ => (disp, ctx)
  | Nat.succ f, disp, ctx, events =>
    let r := dispatch_events_go (fun d c es => dispatch_events h f d c es) h (Nat.succ f)
      disp ctx events []
    let prev := maintain_events r.1.is_mouse_pressed r.1.previous_events r.2.2
    ({ r.1 with previous_events := prev }, r.2.1)

/-- A full tick, from EventDispatcher::process_events: build the event
stream, then dispatch it. -/
def process_events (h : Handler) (fuel : Nat) (disp : EventDispatcher) (ctx : KayakContext)
    (inputs : List InputEvent) : Option (EventDispatcher × KayakContext) :=
  match build_event_stream fuel disp inputs ctx.widget_manager with
  | none => none
  | some b => some (dispatch_events h fuel b.dispatcher ⟨b.manager⟩ b.stream)

/-- A handler that makes no API calls and leaves the context unchanged. -/
def handler_idle : Handler := fun ctx _ => (ctx, ⟨false, false⟩)

/-- A handler that always calls stop_propagation. -/
def handler_stop : Handler := fun ctx _ => (ctx, ⟨true, false⟩)

/-- A handler that always calls prevent_default. -/
def handler_prevent : Handler := fun ctx _ => (ctx, ⟨false, true⟩)

/-- A 10 by 10 rectangle at the origin with z-index 0. -/
def rect0 : Rect := ⟨0, 0, 10, 10, 0⟩

/-- A visual widget with the default All pointer-events policy. -/
def widget_quad : Widget := ⟨some ⟨PointerEvents.All, RenderCommand.Quad⟩⟩

/-- A one-node scene: node 7 is the root, visual, laid out over rect0,
not focusable. -/
def wm_single : WidgetManager :=
  { root_node := some 7
    children := fun _ => some []
    parent := fun _ => none
    current_widgets := fun n => if n = 7 then some (some widget_quad) else none
    get_layout := fun n => if n = 7 then some rect0 else none
    get_focusable := fun n => if n = 7 then some false else none
    focus_tree := ⟨[], none⟩ }

def ctx_single : KayakContext := ⟨wm_single⟩

/-- A visual widget whose pointer-events policy is None. -/
def widget_none : Widget := ⟨some ⟨PointerEvents.None, RenderCommand.Quad⟩⟩

/-- A three-node chain 0 → 1 → 2 where node 1 resolves to the None
pointer-events policy; every node overlaps the same rectangle. -/
def wm_blocked : WidgetManager :=
  { root_node := some 0
    children := fun n => if n = 0 then some [1] else if n = 1 then some [2] else some []
    parent := fun n => if n = 1 then some 0 else if n = 2 then some 1 else none
    current_widgets := fun n =>
      if n = 1 then some (some widget_none) else some (some widget_quad)
    get_layout := fun _ => some rect0
    get_focusable := fun _ => some false
    focus_tree := ⟨[], none⟩ }

/-- A scene whose focus ring registers nodes 1 and 2, with node 1
currently focused. -/
def wm_ring : WidgetManager :=
  { root_node := some 1
    children := fun _ => some []
    parent := fun _ => none
    current_widgets := fun _ => some none
    get_layout := fun _ => none
    get_focusable := fun _ => some true
    focus_tree := ⟨[1, 2], some 1⟩ }

def ctx_ring : KayakContext := ⟨wm_ring⟩

/-- A scene whose root node 3 is present in the tree but whose
widget-store slot is absent: the lookup the dispatcher unwraps returns
nothing. -/
def wm_absent : WidgetManager :=
  { root_node := some 3
    children := fun _ => some []
    parent := fun _ => none
    current_widgets := fun _ => none
    get_layout := fun _ => some rect0
    get_focusable := fun _ => some false
    focus_tree := ⟨[], none⟩ }

/-- A scene whose root node 4 has a present but empty widget-store slot
(the slot exists, the widget value is absent) and a layout rectangle
containing the origin, so pointer processing does reach the widget-value
lookup. -/
def wm_empty_slot : WidgetManager :=
  { root_node := some 4
    children := fun _ => some []
    parent := fun _ => none
    current_widgets := fun _ => some none
    get_layout := fun _ => some rect0
    get_focusable := fun _ => some false
    focus_tree := ⟨[], none⟩ }

/-- A KeyDown(Tab) event without modifiers, targeted at node 1. -/
def ev_tab : Event := Event.new 1 (EventType.KeyDown ⟨KeyCode.Tab, {}⟩)

/-- A dispatcher mid-press: the mouse is held and node 7's MouseDown is in
the persistent map from the previous cycle. -/
def disp_pressed : EventDispatcher :=
  { EventDispatcher.new with
    is_mouse_pressed := true
    previous_events := [(7, EventType.MouseDown)] }

/-- A Click event targeted at node 7. -/
def ev_click : Event := Event.new 7 EventType.Click

/-- A recursive-dispatch stand-in that records the list of events it was
handed into the dispatcher's previous_events field, making the order of
the synthesized Tab events observable. -/
def recur_log : EventDispatcher → KayakContext → List Event → EventDispatcher × KayakContext :=
  fun d c evs => ({ d with previous_events := evs.map (fun e => (e.target, e.event_type)) }, c)

/-- Every best match recorded in the states map satisfies S. -/
def states_bests_in (S : Index → Prop) (states : StatesMap) : Prop :=
  ∀ p, p ∈ states → ∀ m, p.2.best_match = some m → S m

lemma lookup_set_state (states : StatesMap) (t : EventType) (s : EventState) :
    lookup_state (set_state states t s) t = some s := by
  induction states with
  | nil => simp [set_state, lookup_state]
  | cons p rest ih =>
    by_cases h : p.1 = t
    · simp [set_state, h, lookup_state]
    · simp [set_state, h, lookup_state, ih]

lemma get_set_state (states : StatesMap) (t : EventType) (s : EventState) :
    get_state (set_state states t s) t = s := by
  simp [get_state, lookup_set_state]

lemma dispatch_loop_none (h : Handler) (fuel : Nat) (ctx : KayakContext) (nexts : EventMap)
    (event : Event) : dispatch_loop h fuel ctx nexts event none = ⟨ctx, nexts, event, []⟩ := by
  cases fuel <;> rfl

/-- C2: in best-match resolution, for every event kind, a candidate
(node, depth, z-index) replaces the current best iff (depth ≥ best_depth
and z-index ≥ best z-index) or (z-index > best z-index); consequently a
candidate with strictly higher z-index always wins regardless of depth,
and among candidates with equal z-index and greater-or-equal depth the
last-considered candidate overwrites the earlier one. -/
theorem C2_best_match_rule (states : StatesMap) (node : Index) (depth : Int) (layout : Rect)
    (t : EventType) :
    (get_state (update_state states (node, depth) layout t) t =
      if (decide ((get_state states t).best_depth ≤ depth)
            && z_ge layout.z_index (get_state states t).best_z_index)
          || z_gt layout.z_index (get_state states t).best_z_index then
        { best_z_index := some layout.z_index, best_match := some node, best_depth := depth }
      else get_state states t)
    ∧ (z_gt layout.z_index (get_state states t).best_z_index = true →
        get_state (update_state states (node, depth) layout t) t =
          { best_z_index := some layout.z_index, best_match := some node, best_depth := depth })
    ∧ ((get_state states t).best_z_index = some layout.z_index →
        (get_state states t).best_depth ≤ depth →
        get_state (update_state states (node, depth) layout t) t =
          { best_z_index := some layout.z_index, best_match := some node,
            best_depth := depth }) := by
  have key : get_state (update_state states (node, depth) layout t) t =
      if (decide ((get_state states t).best_depth ≤ depth)
            && z_ge layout.z_index (get_state states t).best_z_index)
          || z_gt layout.z_index (get_state states t).best_z_index then
        { best_z_index := some layout.z_index, best_match := some node, best_depth := depth }
      else get_state states t := by
    unfold update_state
    rcases hb : (decide ((get_state states t).best_depth ≤ depth)
        && z_ge layout.z_index (get_state states t).best_z_index)
        || z_gt layout.z_index (get_state states t).best_z_index with _ | _
    · simp [hb, get_set_state]
    · simp [hb, get_set_state]
  refine ⟨key, ?_, ?_⟩
  · intro hz
    rw [key, hz]
    simp
  · intro hz hd
    rw [key, hz]
    simp [z_ge, hd]

/-- C2 witness: with an existing Hover best (z 3, node 1, depth 1), a
later candidate (node 2) at the same z-index 3 and equal depth 1
overwrites the earlier best. -/
theorem C2_witness :
    get_state (update_state [(EventType.Hover, ⟨some 3, some 1, 1⟩)] (2, 1) ⟨0, 0, 1, 1, 3⟩
      EventType.Hover) EventType.Hover = ⟨some 3, some 2, 1⟩ :=
  (C2_best_match_rule [(EventType.Hover, ⟨some 3, some 1, 1⟩)] 2 1 ⟨0, 0, 1, 1, 3⟩
    EventType.Hover).2.2 (by decide) (by decide)

/-- C4: if the handler at node N calls stop_propagation on the event copy
it receives, the propagation loop ends at N: the trace is exactly [N] (no
ancestor's handler is invoked), the next-cycle persistent map gains only
N's entry, and — the copy's propagation flag being cleared — the loop
never re-enters for this event instance. -/
theorem C4_stop_propagation (h : Handler) (fuel : Nat) (ctx : KayakContext) (nexts : EventMap)
    (event : Event) (N : Index)
    (hstop : (h ctx { event with current_target := N }).2.stop_propagation = true) :
    dispatch_loop h (fuel + 1) ctx nexts event (some N) =
      ⟨(h ctx { event with current_target := N }).1,
       insert_event nexts N event.event_type,
       { event with default_prevented := event.default_prevented
           || (h ctx { event with current_target := N }).2.prevent_default },
       [(N, (h ctx { event with current_target := N }).2)]⟩ := by
  simp only [dispatch_loop, apply_handler_calls, hstop, Bool.not_true, Bool.and_false,
    if_false, dispatch_loop_none]
  simp [dispatch_loop_none, Bool.or_self_left]

/-- C4 witness: a stopping handler at the single node 7 yields a
one-element trace. -/
theorem C4_witness :
    dispatch_loop handler_stop 1 ctx_single [] ev_click (some 7) =
      ⟨(handler_stop ctx_single { ev_click with current_target := 7 }).1,
       insert_event [] 7 ev_click.event_type,
       { ev_click with default_prevented := ev_click.default_prevented
           || (handler_stop ctx_single { ev_click with current_target := 7 }).2.prevent_default },
       [(7, (handler_stop ctx_single { ev_click with current_target := 7 }).2)]⟩ :=
  C4_stop_propagation handler_stop 0 ctx_single [] ev_click 7 rfl

lemma dispatch_loop_prevented (h : Handler) :
    ∀ (fuel : Nat) (ctx : KayakContext) (nexts : EventMap) (event : Event) (cur : Option Index),
      (dispatch_loop h fuel ctx nexts event cur).event.default_prevented =
        (event.default_prevented
          || (dispatch_loop h fuel ctx nexts event cur).trace.any fun p => p.2.prevent_default) := by
  intro fuel
  induction fuel with
  | zero => intro ctx nexts event cur; simp [dispatch_loop]
  | succ f ih =>
    intro ctx nexts event cur
    cases cur with
    | none => simp [dispatch_loop]
    | some index =>
      simp only [dispatch_loop, apply_handler_calls]
      rw [ih]
      simp [Bool.or_assoc, Bool.or_self_left]

/-- C5: default_prevented accumulates as a monotonic OR across all
handlers on the propagation chain (the loop's final flag is the original
flag OR-ed with the prevent_default calls of every visited handler), the
default action is skipped when the accumulated flag is set, and it runs —
on the accumulated event — when no handler on the chain set it. -/
theorem C5_default_prevented (h : Handler) (fuel : Nat) (ctx : KayakContext) (nexts : EventMap)
    (event : Event)
    (recur : EventDispatcher → KayakContext → List Event → EventDispatcher × KayakContext)
    (disp : EventDispatcher) :
    (∀ cur, (dispatch_loop h fuel ctx nexts event cur).event.default_prevented =
      (event.default_prevented
        || (dispatch_loop h fuel ctx nexts event cur).trace.any fun p => p.2.prevent_default))
    ∧ ((dispatch_loop h fuel ctx nexts event (some event.target)).event.default_prevented = true →
        dispatch_one_with recur h fuel disp ctx nexts event =
          (disp, (dispatch_loop h fuel ctx nexts event (some event.target)).ctx,
           (dispatch_loop h fuel ctx nexts event (some event.target)).next_events))
    ∧ ((dispatch_loop h fuel ctx nexts event (some event.target)).event.default_prevented = false →
        dispatch_one_with recur h fuel disp ctx nexts event =
          ((execute_default_with recur disp
              (dispatch_loop h fuel ctx nexts event (some event.target)).ctx
              (dispatch_loop h fuel ctx nexts event (some event.target)).event).1,
           (execute_default_with recur disp
              (dispatch_loop h fuel ctx nexts event (some event.target)).ctx
              (dispatch_loop h fuel ctx nexts event (some event.target)).event).2,
           (dispatch_loop h fuel ctx nexts event (some event.target)).next_events)) := by
  refine ⟨fun cur => dispatch_loop_prevented h fuel ctx nexts event cur, ?_, ?_⟩
  · intro hT
    simp [dispatch_one_with, hT]
  · intro hF
    simp [dispatch_one_with, hF]

/-- C5 witness: a handler that calls prevent_default at the single node 7
leaves the dispatcher untouched by the default-action step. -/
theorem C5_witness :
    dispatch_one_with recur_log handler_prevent 2 EventDispatcher.new ctx_single [] ev_click =
      (EventDispatcher.new,
       (dispatch_loop handler_prevent 2 ctx_single [] ev_click (some ev_click.target)).ctx,
       (dispatch_loop handler_prevent 2 ctx_single [] ev_click
          (some ev_click.target)).next_events) :=
  (C5_default_prevented handler_prevent 2 ctx_single [] ev_click recur_log
    EventDispatcher.new).2.1 (by decide)

/-- C10: with no current focus, processing any keyboard or char input
event produces no semantic events and leaves the dispatcher — in
particular its keyboard-modifier snapshot — completely unchanged. -/
theorem C10_no_focus_keyboard_inert (disp : EventDispatcher) (input : InputEvent)
    (wm : WidgetManager) (hfocus : wm.focus_tree.current = none) :
    process_keyboard_events disp input wm = (disp, []) := by
  unfold process_keyboard_events
  rw [hfocus]

/-- C10 witness: a Shift press with nothing focused is dropped without
recording the modifier. -/
theorem C10_witness :
    process_keyboard_events EventDispatcher.new (InputEvent.Keyboard KeyCode.LShift true)
      wm_single = (EventDispatcher.new, []) :=
  C10_no_focus_keyboard_inert EventDispatcher.new (InputEvent.Keyboard KeyCode.LShift true)
    wm_single rfl

lemma execute_default_tab
    (recur : EventDispatcher → KayakContext → List Event → EventDispatcher × KayakContext)
    (disp : EventDispatcher) (ctx : KayakContext) (kevt : KeyboardEvent) (t0 : Index)
    (hkey : kevt.key = KeyCode.Tab) :
    execute_default_with recur disp ctx (Event.new t0 (EventType.KeyDown kevt)) =
      match (if kevt.is_shift_pressed then ctx.widget_manager.focus_tree.prev
             else ctx.widget_manager.focus_tree.next) with
      | some index =>
        recur disp
          ⟨{ ctx.widget_manager with focus_tree := ctx.widget_manager.focus_tree.focus index }⟩
          (tab_events index ctx.widget_manager.focus_tree.current)
      | none => (disp, ctx) := by
  obtain ⟨key, mods⟩ := kevt
  cases hkey
  rfl

/-- C3 counterexample: with node 1 focused and node 2 selected by Tab, the
default action hands the recursive dispatch the stream
[Focus(2), Blur(1)] — the Focus comes first, so the claimed
Blur-before-Focus ordering is false at this input. -/
theorem C3_counterexample :
    (execute_default_with recur_log EventDispatcher.new ctx_ring ev_tab).1.previous_events =
      [(2, EventType.Focus), (1, EventType.Blur)] ∧
    ¬((execute_default_with recur_log EventDispatcher.new ctx_ring
        ev_tab).1.previous_events.head? = some (1, EventType.Blur)) := by
  decide

/-- C3 amended: the Tab default action selects prev() with Shift held and
next() otherwise; with no current focus it dispatches only a Focus event
(no Blur); with a different node focused it dispatches Focus for the new
node followed by Blur for the old one — Focus before Blur — committing
the ring change first, and both events are fully dispatched through the
synchronous recursive dispatch before the default action returns. -/
theorem C3_tab_default_action (h : Handler) (f : Nat) (disp : EventDispatcher)
    (ctx : KayakContext) (kevt : KeyboardEvent) (t0 idx : Index)
    (hkey : kevt.key = KeyCode.Tab)
    (htgt : (if kevt.is_shift_pressed then ctx.widget_manager.focus_tree.prev
             else ctx.widget_manager.focus_tree.next) = some idx) :
    (ctx.widget_manager.focus_tree.current = none →
      execute_default_with (fun d c es => dispatch_events h f d c es) disp ctx
          (Event.new t0 (EventType.KeyDown kevt)) =
        dispatch_events h f disp
          ⟨{ ctx.widget_manager with focus_tree := ctx.widget_manager.focus_tree.focus idx }⟩
          [Event.new idx EventType.Focus])
    ∧ (∀ c, ctx.widget_manager.focus_tree.current = some c → c ≠ idx →
        execute_default_with (fun d cx es => dispatch_events h f d cx es) disp ctx
            (Event.new t0 (EventType.KeyDown kevt)) =
          dispatch_events h f disp
            ⟨{ ctx.widget_manager with focus_tree := ctx.widget_manager.focus_tree.focus idx }⟩
            [Event.new idx EventType.Focus, Event.new c EventType.Blur]) := by
  constructor
  · intro hcur
    rw [execute_default_tab _ _ _ _ _ hkey, htgt, hcur]
    simp [tab_events]
  · intro c hcur hne
    rw [execute_default_tab _ _ _ _ _ hkey, htgt, hcur]
    simp [tab_events, hne]

/-- C3 witness: Tab from the two-node ring with node 1 focused dispatches
[Focus(2), Blur(1)] through the recursive dispatch. -/
theorem C3_witness :
    execute_default_with (fun d c es => dispatch_events handler_idle 3 d c es)
        EventDispatcher.new ctx_ring (Event.new 1 (EventType.KeyDown ⟨KeyCode.Tab, {}⟩)) =
      dispatch_events handler_idle 3 EventDispatcher.new
        ⟨{ ctx_ring.widget_manager with
            focus_tree := ctx_ring.widget_manager.focus_tree.focus 2 }⟩
        [Event.new 2 EventType.Focus, Event.new 1 EventType.Blur] :=
  (C3_tab_default_action handler_idle 3 EventDispatcher.new ctx_ring ⟨KeyCode.Tab, {}⟩ 1 2 rfl
    (by decide)).2 1 rfl (by decide)

lemma mem_insert_event_of_mem (m : EventMap) (i : Index) (t : EventType) {x : Index × EventType}
    (hx : x ∈ m) : x ∈ insert_event m i t := by
  unfold insert_event
  split
  · exact hx
  · exact List.mem_cons_of_mem _ hx

lemma mem_insert_event_self (m : EventMap) (i : Index) (t : EventType) :
    (i, t) ∈ insert_event m i t := by
  unfold insert_event
  split
  · assumption
  · exact List.mem_cons_self _ _

lemma mem_insert_event_iff (m : EventMap) (i : Index) (t : EventType) (x : Index × EventType) :
    x ∈ insert_event m i t ↔ x = (i, t) ∨ x ∈ m := by
  unfold insert_event
  split
  · constructor
    · exact fun hx => Or.inr hx
    · rintro (rfl | hx)
      · assumption
      · exact hx
  · exact List.mem_cons

lemma mem_ite_insert {c : Prop} [Decidable c] (m : EventMap) (i : Index) (t : EventType)
    {x : Index × EventType} (hx : x ∈ m) :
    x ∈ (if c then insert_event m i t else m) := by
  split
  · exact mem_insert_event_of_mem m i t hx
  · exact hx

lemma mem_maintain_step_of_mem (pressed : Bool) (acc : EventMap) (p : Index × EventType)
    {x : Index × EventType} (hx : x ∈ acc) : x ∈ maintain_step pressed acc p := by
  simp only [maintain_step]
  exact mem_ite_insert _ _ _ (mem_ite_insert _ _ _ hx)

lemma maintain_events_cons (pressed : Bool) (p : Index × EventType) (rest : EventMap)
    (nexts : EventMap) :
    maintain_events pressed (p :: rest) nexts =
      maintain_events pressed rest (maintain_step pressed nexts p) := rfl

lemma maintain_events_mem_mono (pressed : Bool) :
    ∀ (previous nexts : EventMap) {x : Index × EventType}, x ∈ nexts →
      x ∈ maintain_events pressed previous nexts := by
  intro previous
  induction previous with
  | nil => exact fun nexts _ hx => hx
  | cons p rest ih =>
    intro nexts x hx
    rw [maintain_events_cons]
    exact ih _ (mem_maintain_step_of_mem pressed nexts p hx)

lemma maintain_step_self_mousedown (nexts : EventMap) (N : Index) :
    (N, EventType.MouseDown) ∈ maintain_step true nexts (N, EventType.MouseDown) := by
  have hstep : maintain_step true nexts (N, EventType.MouseDown) =
      insert_event nexts N EventType.MouseDown := by
    simp [maintain_step]
  rw [hstep]
  exact mem_insert_event_self nexts N EventType.MouseDown

lemma maintain_events_carry (previous : EventMap) (N : Index)
    (hmem : (N, EventType.MouseDown) ∈ previous) :
    ∀ nexts, (N, EventType.MouseDown) ∈ maintain_events true previous nexts := by
  induction previous with
  | nil => cases hmem
  | cons p rest ih =>
    intro nexts
    rw [maintain_events_cons]
    rcases List.mem_cons.mp hmem with hp | hmem2
    · apply maintain_events_mem_mono
      rw [← hp]
      exact maintain_step_self_mousedown nexts N
    · exact ih hmem2 _

lemma maintain_events_unpressed (previous : EventMap) (N : Index) :
    ∀ nexts, ((N, EventType.MouseDown) ∈ maintain_events false previous nexts ↔
      (N, EventType.MouseDown) ∈ nexts) := by
  induction previous with
  | nil => exact fun nexts => Iff.rfl
  | cons p rest ih =>
    intro nexts
    rw [maintain_events_cons, ih]
    simp only [maintain_step, Bool.false_and, Bool.false_eq_true, if_false]
    split
    · rw [mem_insert_event_iff]
      simp
    · exact Iff.rfl

lemma execute_default_with_preserve
    (recur : EventDispatcher → KayakContext → List Event → EventDispatcher × KayakContext)
    (P : EventDispatcher → Prop) (hr : ∀ d c es, P d → P (recur d c es).1)
    (disp : EventDispatcher) (ctx : KayakContext) (event : Event) (hd : P disp) :
    P (execute_default_with recur disp ctx event).1 := by
  simp only [execute_default_with]
  repeat' split
  all_goals first
    | exact hd
    | exact hr _ _ _ hd

lemma dispatch_one_with_preserve
    (recur : EventDispatcher → KayakContext → List Event → EventDispatcher × KayakContext)
    (h : Handler) (fuel : Nat) (P : EventDispatcher → Prop)
    (hr : ∀ d c es, P d → P (recur d c es).1)
    (disp : EventDispatcher) (ctx : KayakContext) (nexts : EventMap) (event : Event)
    (hd : P disp) : P (dispatch_one_with recur h fuel disp ctx nexts event).1 := by
  simp only [dispatch_one_with]
  split
  · exact hd
  · exact execute_default_with_preserve recur P hr disp _ _ hd

lemma dispatch_events_go_preserve
    (recur : EventDispatcher → KayakContext → List Event → EventDispatcher × KayakContext)
    (h : Handler) (fuel : Nat) (P : EventDispatcher → Prop)
    (hr : ∀ d c es, P d → P (recur d c es).1) :
    ∀ (events : List Event) (disp : EventDispatcher) (ctx : KayakContext) (nexts : EventMap),
      P disp → P (dispatch_events_go recur h fuel disp ctx events nexts).1 := by
  intro events
  induction events with
  | nil => exact fun disp ctx nexts hd => hd
  | cons event rest ih =>
    intro disp ctx nexts hd
    simp only [dispatch_events_go]
    exact ih _ _ _ (dispatch_one_with_preserve recur h fuel P hr disp ctx nexts event hd)

lemma dispatch_events_preserve (h : Handler) (P : EventDispatcher → Prop)
    (hmaint : ∀ d nexts, P d →
      P { d with previous_events := maintain_events d.is_mouse_pressed d.previous_events nexts }) :
    ∀ (fuel : Nat) (disp : EventDispatcher) (ctx : KayakContext) (events : List Event),
      P disp → P (dispatch_events h fuel disp ctx events).1 := by
  intro fuel
  induction fuel with
  | zero => exact fun disp ctx events hd => hd
  | succ f ih =>
    intro disp ctx events hd
    simp only [dispatch_events]
    apply hmaint
    exact dispatch_events_go_preserve _ h _ P (fun d c es hdp => ih d c es hdp) events disp ctx
      [] hd

/-- C6: pointer-primary-release processing clears the global mouse-pressed
flag and the cursor owner for every node processed and never aborts; while
the flag stays true a node's MouseDown survives the persistent-map rebuild
of any dispatch cycle (the flag itself is never altered by dispatch, so
true at entry is true at the end of the cycle); and with the flag false
the maintain phase carries no MouseDown forward for any node. -/
theorem C6_mouse_down_persistence :
    (∀ (disp : EventDispatcher) (node : Index) (depth : Int) (states : StatesMap)
        (wm : WidgetManager),
      ∃ r, process_pointer_events disp InputEvent.MouseLeftRelease (node, depth) states wm =
          some r ∧ r.dispatcher.is_mouse_pressed = false ∧ r.dispatcher.has_cursor = none)
    ∧ (∀ (h : Handler) (fuel : Nat) (disp : EventDispatcher) (ctx : KayakContext)
        (events : List Event) (N : Index),
        disp.is_mouse_pressed = true → (N, EventType.MouseDown) ∈ disp.previous_events →
        (N, EventType.MouseDown) ∈ (dispatch_events h fuel disp ctx events).1.previous_events)
    ∧ (∀ (h : Handler) (fuel : Nat) (disp : EventDispatcher) (ctx : KayakContext)
        (events : List Event),
        (dispatch_events h fuel disp ctx events).1.is_mouse_pressed = disp.is_mouse_pressed)
    ∧ (∀ (previous nexts : EventMap) (N : Index),
        ((N, EventType.MouseDown) ∈ maintain_events false previous nexts ↔
          (N, EventType.MouseDown) ∈ nexts)) := by
  refine ⟨?_, ?_, ?_, ?_⟩
  · intro disp node depth states wm
    unfold process_pointer_events
    dsimp only
    cases hl : wm.get_layout node with
    | none => exact ⟨_, rfl, rfl, rfl⟩
    | some layout =>
      dsimp only
      split
      · exact ⟨_, rfl, rfl, rfl⟩
      · exact ⟨_, rfl, rfl, rfl⟩
  · intro h fuel disp ctx events N hp hm
    have key := dispatch_events_preserve h
      (fun d => d.is_mouse_pressed = true ∧ (N, EventType.MouseDown) ∈ d.previous_events)
      (fun d nexts hd => by
        refine ⟨hd.1, ?_⟩
        simp only [hd.1]
        exact maintain_events_carry d.previous_events N hd.2 nexts)
      fuel disp ctx events ⟨hp, hm⟩
    exact key.2
  · intro h fuel disp ctx events
    exact dispatch_events_preserve h (fun d => d.is_mouse_pressed = disp.is_mouse_pressed)
      (fun d nexts hd => hd) fuel disp ctx events rfl
  · intro previous nexts N
    exact maintain_events_unpressed previous N nexts

/-- C6 witness: with the mouse held and node 7's MouseDown persisted, a
dispatch cycle with no events keeps node 7's MouseDown in the rebuilt
map. -/
theorem C6_witness :
    (7, EventType.MouseDown) ∈
      (dispatch_events handler_idle 2 disp_pressed ctx_single []).1.previous_events :=
  C6_mouse_down_persistence.2.1 handler_idle 2 disp_pressed ctx_single [] 7 rfl
    (List.mem_singleton.mpr rfl)

/-- C8: releasing the primary pointer while the last-known mouse position
is inside a node's layout rectangle always emits MouseUp and updates the
last-clicked observable to that node (regardless of whether a Click
results); when the node additionally had MouseDown in the previous
cycle's persistent state it is registered as a Click contender, and
otherwise the states are untouched. Concretely, pressing and then
releasing over the same node with no movement in between yields a Click
event for that node in the next cycle's stream and leaves the last-clicked
observable at that node. -/
theorem C8_click_round_trip :
    (∀ (disp : EventDispatcher) (node : Index) (depth : Int) (states : StatesMap)
        (wm : WidgetManager) (layout : Rect),
      wm.get_layout node = some layout →
      layout.contains disp.current_mouse_position = true →
      process_pointer_events disp InputEvent.MouseLeftRelease (node, depth) states wm =
        some ⟨{ disp with is_mouse_pressed := false, has_cursor := none, last_clicked := node },
              (if contains_event disp.previous_events node EventType.MouseDown then
                 update_state states (node, depth) layout EventType.Click
               else states),
              [Event.new node EventType.MouseUp]⟩)
    ∧ ((process_events handler_idle 5 EventDispatcher.new ctx_single
          [InputEvent.MouseLeftPress]).bind
        (fun r => (build_event_stream 5 r.1 [InputEvent.MouseLeftRelease]
            r.2.widget_manager).map
          (fun b => (decide (Event.new 7 EventType.Click ∈ b.stream),
                     b.dispatcher.last_clicked))) = some (true, 7)) := by
  constructor
  · intro disp node depth states wm layout hl hc
    unfold process_pointer_events
    dsimp only
    rw [hl]
    dsimp only
    rw [if_pos hc]
  · decide

/-- C8 witness: the release characterization applied to the one-node scene
at the initial dispatcher. -/
theorem C8_witness :
    process_pointer_events EventDispatcher.new InputEvent.MouseLeftRelease (7, 0) [] wm_single =
      some ⟨{ EventDispatcher.new with
                is_mouse_pressed := false, has_cursor := none, last_clicked := 7 },
            (if contains_event EventDispatcher.new.previous_events 7 EventType.MouseDown then
               update_state [] (7, 0) rect0 EventType.Click
             else []),
            [Event.new 7 EventType.MouseUp]⟩ :=
  C8_click_round_trip.1 EventDispatcher.new 7 0 [] wm_single rect0 (by decide) (by decide)

lemma process_node_inputs_panic (wm : WidgetManager) (current : Index) (depth : Int)
    (hcw : wm.current_widgets current = none) :
    ∀ (inputs : List InputEvent) (disp : EventDispatcher) (states : StatesMap)
      (evs : List Event) (enter did : Bool),
      (∃ i, i ∈ inputs ∧ i.category = InputEventCategory.Mouse) →
      process_node_inputs wm current depth inputs disp states evs enter did = none := by
  intro inputs
  induction inputs with
  | nil =>
    rintro _ _ _ _ _ ⟨i, hi, _⟩
    cases hi
  | cons input rest ih =>
    rintro disp states evs enter did ⟨i, hi, hcat⟩
    by_cases hm : input.category = InputEventCategory.Mouse
    · simp [process_node_inputs, hm, resolve_pointer_events, hcw]
    · rcases List.mem_cons.mp hi with rfl | hrest
      · exact absurd hcat hm
      · simp only [process_node_inputs, hm, if_false]
        exact ih disp states evs enter did ⟨i, hrest, hcat⟩

/-- C9 counterexample: with the root's widget-store slot absent and a
pointer input in the tick, the cycle aborts (the model's `none` is the
panic of the unwrapped store lookup) instead of silently skipping the
node. -/
theorem C9_counterexample :
    build_event_stream 3 EventDispatcher.new [InputEvent.MouseMoved (1, 1)] wm_absent =
      none := rfl

/-- C9 amended: every lookup of the original claim except the unwrapped
widget-store slot lookup is silently skipped without a fatal abort — an
absent layout rectangle skips the node's pointer processing with no
events and no best-match registration; an absent tree root yields an
empty cycle; an absent children list blocks descent with nothing pushed;
an absent parent ends propagation at the current node; an absent widget
value in a present store slot makes the pointer-events policy fall back
to the default and leaves the contains-cursor and has-cursor state
untouched, without abort; an absent focusable entry registers no Focus
contender and leaves wants-cursor untouched. But the widget-store slot
lookups made during the tree walk and pointer processing are unwrapped,
so a store slot lookup that returns absent under a pointer input aborts
the dispatch cycle fatally. -/
theorem C9_absent_lookups :
    (∀ (disp : EventDispatcher) (input : InputEvent) (node : Index) (depth : Int)
        (states : StatesMap) (wm : WidgetManager),
      wm.get_layout node = none →
      ∃ d2, process_pointer_events disp input (node, depth) states wm = some ⟨d2, states, []⟩)
    ∧ (∀ (fuel : Nat) (disp : EventDispatcher) (inputs : List InputEvent) (wm : WidgetManager),
        wm.root_node = none →
        build_event_stream fuel disp inputs wm = some ⟨disp, wm, [], []⟩)
    ∧ (∀ (wm : WidgetManager) (current : Index) (depth : Int) (rest : List (Index × Int)),
        wm.children current = none → push_children wm current depth rest = rest)
    ∧ (∀ (h : Handler) (fuel : Nat) (ctx : KayakContext) (nexts : EventMap) (event : Event)
        (N : Index),
        (h ctx { event with current_target := N }).1.widget_manager.parent N = none →
        dispatch_loop h (fuel + 1) ctx nexts event (some N) =
          ⟨(h ctx { event with current_target := N }).1,
           insert_event nexts N event.event_type,
           { event with default_prevented := event.default_prevented
               || (h ctx { event with current_target := N }).2.prevent_default },
           [(N, (h ctx { event with current_target := N }).2)]⟩)
    ∧ (∀ (wm : WidgetManager) (current : Index),
        wm.current_widgets current = some none →
        resolve_pointer_events wm current = some PointerEvents.default)
    ∧ (∀ (disp : EventDispatcher) (point : Int × Int) (node : Index) (depth : Int)
        (states : StatesMap) (wm : WidgetManager) (r : PPEResult),
        wm.current_widgets node = some none →
        process_pointer_events disp (InputEvent.MouseMoved point) (node, depth) states wm =
          some r →
        r.dispatcher.contains_cursor = disp.contains_cursor)
    ∧ (∀ (disp : EventDispatcher) (node : Index) (depth : Int) (states : StatesMap)
        (wm : WidgetManager) (r : PPEResult),
        wm.current_widgets node = some none →
        process_pointer_events disp InputEvent.MouseLeftPress (node, depth) states wm =
          some r →
        r.dispatcher.has_cursor = disp.has_cursor)
    ∧ (∀ (disp : EventDispatcher) (point : Int × Int) (node : Index) (depth : Int)
        (states : StatesMap) (wm : WidgetManager) (r : PPEResult),
        wm.get_focusable node = none →
        process_pointer_events disp (InputEvent.MouseMoved point) (node, depth) states wm =
          some r →
        r.dispatcher.wants_cursor = disp.wants_cursor)
    ∧ (∀ (disp : EventDispatcher) (node : Index) (depth : Int) (states : StatesMap)
        (wm : WidgetManager) (r : PPEResult),
        wm.get_focusable node = none →
        process_pointer_events disp InputEvent.MouseLeftPress (node, depth) states wm =
          some r →
        r.states = states)
    ∧ (∀ (fuel : Nat) (disp : EventDispatcher) (inputs : List InputEvent) (wm : WidgetManager)
        (root : Index),
        wm.root_node = some root → wm.current_widgets root = none →
        (∃ i, i ∈ inputs ∧ i.category = InputEventCategory.Mouse) →
        build_event_stream (fuel + 1) disp inputs wm = none) := by
  refine ⟨?_, ?_, ?_, ?_, ?_, ?_, ?_, ?_, ?_, ?_⟩
  · intro disp input node depth states wm hl
    cases input with
    | MouseMoved point =>
      unfold process_pointer_events
      dsimp only
      rw [hl]
      exact ⟨_, rfl⟩
    | MouseLeftPress =>
      unfold process_pointer_events
      dsimp only
      rw [hl]
      exact ⟨_, rfl⟩
    | MouseLeftRelease =>
      unfold process_pointer_events
      dsimp only
      rw [hl]
      exact ⟨_, rfl⟩
    | Keyboard key is_pressed => exact ⟨_, rfl⟩
    | CharEvent c => exact ⟨_, rfl⟩
  · intro fuel disp inputs wm hroot
    unfold build_event_stream
    rw [hroot]
  · intro wm current depth rest hch
    simp [push_children, hch]
  · intro h fuel ctx nexts event N hpar
    simp only [dispatch_loop, apply_handler_calls, hpar, ite_self, dispatch_loop_none]
    simp [dispatch_loop_none, Bool.or_self_left]
  · intro wm current hcw
    unfold resolve_pointer_events
    rw [hcw]
  · intro disp point node depth states wm r hcw h
    unfold process_pointer_events at h
    dsimp only at h
    rw [hcw] at h
    repeat' (first | split at h | dsimp only at h)
    all_goals first
      | exact Option.noConfusion h
      | (cases h; rfl)
      | (cases h; simp_all)
  · intro disp node depth states wm r hcw h
    unfold process_pointer_events at h
    dsimp only at h
    rw [hcw] at h
    repeat' (first | split at h | dsimp only at h)
    all_goals first
      | exact Option.noConfusion h
      | (cases h; rfl)
      | (cases h; simp_all)
    all_goals (split_ifs at * <;> simp_all)
  · intro disp point node depth states wm r hfoc h
    unfold process_pointer_events at h
    dsimp only at h
    rw [hfoc] at h
    repeat' (first | split at h | dsimp only at h)
    all_goals first
      | exact Option.noConfusion h
      | (cases h; rfl)
      | (cases h; simp_all)
  · intro disp node depth states wm r hfoc h
    unfold process_pointer_events at h
    dsimp only at h
    rw [hfoc] at h
    repeat' (first | split at h | dsimp only at h)
    all_goals first
      | exact Option.noConfusion h
      | (cases h; rfl)
      | (cases h; simp_all)
  · intro fuel disp inputs wm root hroot hcw hmouse
    have hpni := process_node_inputs_panic wm root 0 hcw inputs
      { disp with contains_cursor := none, wants_cursor := none } [] [] true false hmouse
    unfold build_event_stream
    rw [hroot]
    dsimp only
    rw [show build_walk wm inputs (fuel + 1) [(root, 0)]
        { disp with contains_cursor := none, wants_cursor := none } [] [] [] = none by
      simp only [build_walk, hpni]]

/-- C9 witness: on a node whose store slot is present but holds no widget
value, the walk's policy resolution falls back to the default, and a
primary press whose position lies inside the node's rectangle — a run
that does evaluate the widget-value lookup for the cursor-eligibility
check — completes without abort and leaves the cursor owner untouched. -/
theorem C9_witness :
    resolve_pointer_events wm_empty_slot 4 = some PointerEvents.default ∧
    ∃ r, process_pointer_events EventDispatcher.new InputEvent.MouseLeftPress (4, 0) []
        wm_empty_slot = some r ∧ r.dispatcher.has_cursor = EventDispatcher.new.has_cursor := by
  constructor
  · exact C9_absent_lookups.2.2.2.2.1 wm_empty_slot 4 rfl
  · have hs : (process_pointer_events EventDispatcher.new InputEvent.MouseLeftPress (4, 0) []
        wm_empty_slot).isSome = true := by decide
    obtain ⟨r, hr⟩ := Option.isSome_iff_exists.mp hs
    exact ⟨r, hr, C9_absent_lookups.2.2.2.2.2.2.1 EventDispatcher.new 4 0 [] wm_empty_slot r
      rfl hr⟩

lemma set_state_cons_eq (rest : StatesMap) (t : EventType) (s' s : EventState) :
    set_state ((t, s') :: rest) t s = (t, s) :: rest := by
  simp [set_state]

lemma set_state_cons_ne (rest : StatesMap) (t' t : EventType) (s' s : EventState)
    (h : t' ≠ t) : set_state ((t', s') :: rest) t s = (t', s') :: set_state rest t s := by
  simp [set_state, h]

lemma mem_keys_set_state (states : StatesMap) (t : EventType) (s : EventState) (x : EventType) :
    x ∈ (set_state states t s).map Prod.fst ↔ x = t ∨ x ∈ states.map Prod.fst := by
  induction states with
  | nil => simp [set_state]
  | cons p rest ih =>
    obtain ⟨t', s'⟩ := p
    by_cases h : t' = t
    · subst h
      rw [set_state_cons_eq]
      simp only [List.map_cons, List.mem_cons]
      tauto
    · rw [set_state_cons_ne rest t' t s' s h]
      simp only [List.map_cons, List.mem_cons, ih]
      tauto

lemma set_state_keys_nodup (states : StatesMap) (t : EventType) (s : EventState)
    (hn : (states.map Prod.fst).Nodup) : ((set_state states t s).map Prod.fst).Nodup := by
  induction states with
  | nil => simp [set_state]
  | cons p rest ih =>
    obtain ⟨t', s'⟩ := p
    rw [List.map_cons, List.nodup_cons] at hn
    by_cases h : t' = t
    · subst h
      rw [set_state_cons_eq, List.map_cons, List.nodup_cons]
      exact ⟨hn.1, hn.2⟩
    · rw [set_state_cons_ne rest t' t s' s h, List.map_cons, List.nodup_cons]
      refine ⟨?_, ih hn.2⟩
      intro hmem
      rcases (mem_keys_set_state rest t s t').mp hmem with rfl | hmem2
      · exact h rfl
      · exact hn.1 hmem2

lemma update_state_keys_nodup (states : StatesMap) (tn : Index × Int) (layout : Rect)
    (t : EventType) (hn : (states.map Prod.fst).Nodup) :
    ((update_state states tn layout t).map Prod.fst).Nodup := by
  unfold update_state
  dsimp only
  split
  · exact set_state_keys_nodup states t _ hn
  · exact set_state_keys_nodup states t _ hn

lemma mem_set_state (states : StatesMap) (t : EventType) (s : EventState)
    (x : EventType × EventState) (hx : x ∈ set_state states t s) : x = (t, s) ∨ x ∈ states := by
  induction states with
  | nil => simpa [set_state] using hx
  | cons p rest ih =>
    obtain ⟨t', s'⟩ := p
    by_cases h : t' = t
    · subst h
      rw [set_state_cons_eq] at hx
      rcases List.mem_cons.mp hx with rfl | hx2
      · exact Or.inl rfl
      · exact Or.inr (List.mem_cons_of_mem _ hx2)
    · rw [set_state_cons_ne rest t' t s' s h] at hx
      rcases List.mem_cons.mp hx with rfl | hx2
      · exact Or.inr (List.mem_cons_self _ _)
      · rcases ih hx2 with h1 | h2
        · exact Or.inl h1
        · exact Or.inr (List.mem_cons_of_mem _ h2)

lemma lookup_state_mem (states : StatesMap) (t : EventType) (s : EventState)
    (h : lookup_state states t = some s) : (t, s) ∈ states := by
  induction states with
  | nil => cases h
  | cons p rest ih =>
    obtain ⟨t', s'⟩ := p
    by_cases ht : t' = t
    · subst ht
      have heq : lookup_state ((t', s') :: rest) t' = some s' := by simp [lookup_state]
      rw [heq, Option.some.injEq] at h
      subst h
      exact List.mem_cons_self _ _
    · have heq : lookup_state ((t', s') :: rest) t = lookup_state rest t := by
        simp [lookup_state, ht]
      rw [heq] at h
      exact List.mem_cons_of_mem _ (ih h)

lemma update_state_bests_in (S : Index → Prop) (states : StatesMap) (node : Index) (depth : Int)
    (layout : Rect) (t : EventType) (hS : S node)
    (hb : states_bests_in S states) :
    states_bests_in S (update_state states (node, depth) layout t) := by
  have hold : ∀ m, (get_state states t).best_match = some m → S m := by
    intro m hm
    unfold get_state at hm
    cases hls : lookup_state states t with
    | none => rw [hls] at hm; cases hm
    | some s0 =>
      rw [hls] at hm
      exact hb (t, s0) (lookup_state_mem states t s0 hls) m hm
  intro p hp m hm
  unfold update_state at hp
  dsimp only at hp
  split at hp
  · rcases mem_set_state _ _ _ _ hp with rfl | hmem
    · simp only at hm
      cases hm
      exact hS
    · exact hb p hmem m hm
  · rcases mem_set_state _ _ _ _ hp with rfl | hmem
    · exact hold m hm
    · exact hb p hmem m hm

lemma ppe_events_shape (disp : EventDispatcher) (input : InputEvent) (node : Index)
    (depth : Int) (states : StatesMap) (wm : WidgetManager) (r : PPEResult)
    (h : process_pointer_events disp input (node, depth) states wm = some r) :
    ∀ e ∈ r.events, e.target = node ∧
      (e.event_type = EventType.MouseIn ∨ e.event_type = EventType.MouseOut ∨
       e.event_type = EventType.MouseDown ∨ e.event_type = EventType.MouseUp) := by
  unfold process_pointer_events at h
  dsimp only at h
  cases input <;> repeat' split at h
  all_goals (try exact Option.noConfusion h)
  all_goals (cases h; intro e he; dsimp only at he)
  all_goals simp_all [Event.new]

lemma ppe_states_shape (disp : EventDispatcher) (input : InputEvent) (node : Index)
    (depth : Int) (states : StatesMap) (wm : WidgetManager) (r : PPEResult)
    (h : process_pointer_events disp input (node, depth) states wm = some r) :
    r.states = states ∨ ∃ layout t, wm.get_layout node = some layout ∧
      r.states = update_state states (node, depth) layout t ∧
      (t = EventType.Hover ∨ t = EventType.Focus ∨ t = EventType.Click) := by
  unfold process_pointer_events at h
  dsimp only at h
  cases input <;> repeat' split at h
  all_goals (try exact Option.noConfusion h)
  all_goals cases h
  all_goals first
    | (left; rfl)
    | (right; exact ⟨_, _, by assumption, rfl, by simp⟩)

lemma kb_events_category (disp : EventDispatcher) (input : InputEvent) (wm : WidgetManager) :
    ∀ e ∈ (process_keyboard_events disp input wm).2,
      e.event_type.event_category = EventCategory.Keyboard := by
  unfold process_keyboard_events
  repeat' split
  all_goals (intro e he; dsimp only at he; simp_all [Event.new, EventType.event_category])

lemma ppe_countP (p : Event → Bool)
    (hp : ∀ e, (e.event_type = EventType.MouseIn ∨ e.event_type = EventType.MouseOut ∨
        e.event_type = EventType.MouseDown ∨ e.event_type = EventType.MouseUp) → p e = false)
    (disp : EventDispatcher) (input : InputEvent) (node : Index) (depth : Int)
    (states : StatesMap) (wm : WidgetManager) (r : PPEResult)
    (h : process_pointer_events disp input (node, depth) states wm = some r) :
    r.events.countP p = 0 := by
  rw [List.countP_eq_zero]
  intro e he
  have hshape := ppe_events_shape disp input node depth states wm r h e he
  simp [hp e hshape.2]

lemma ppe_states_nodup (disp : EventDispatcher) (input : InputEvent) (node : Index)
    (depth : Int) (states : StatesMap) (wm : WidgetManager) (r : PPEResult)
    (h : process_pointer_events disp input (node, depth) states wm = some r)
    (hn : (states.map Prod.fst).Nodup) : (r.states.map Prod.fst).Nodup := by
  rcases ppe_states_shape disp input node depth states wm r h with heq | ⟨layout, t, _, heq, _⟩
  · rw [heq]; exact hn
  · rw [heq]; exact update_state_keys_nodup states (node, depth) layout t hn

lemma ppe_bests_in (S : Index → Prop) (disp : EventDispatcher) (input : InputEvent)
    (node : Index) (depth : Int) (states : StatesMap) (wm : WidgetManager) (r : PPEResult)
    (h : process_pointer_events disp input (node, depth) states wm = some r)
    (hS : S node) (hb : states_bests_in S states) : states_bests_in S r.states := by
  rcases ppe_states_shape disp input node depth states wm r h with heq | ⟨layout, t, _, heq, _⟩
  · rw [heq]; exact hb
  · rw [heq]; exact update_state_bests_in S states node depth layout t hS hb

lemma pni_countP (wm : WidgetManager) (current : Index) (depth : Int) (p : Event → Bool)
    (hp : ∀ e, (e.event_type = EventType.MouseIn ∨ e.event_type = EventType.MouseOut ∨
        e.event_type = EventType.MouseDown ∨ e.event_type = EventType.MouseUp) → p e = false) :
    ∀ (inputs : List InputEvent) (disp : EventDispatcher) (states : StatesMap)
      (evs : List Event) (enter did : Bool) (r : NodeProcessResult),
      process_node_inputs wm current depth inputs disp states evs enter did = some r →
      r.events.countP p = evs.countP p := by
  intro inputs
  induction inputs with
  | nil =>
    intro disp states evs enter did r h
    simp only [process_node_inputs] at h
    cases h
    rfl
  | cons input rest ih =>
    intro disp states evs enter did r h
    simp only [process_node_inputs] at h
    split at h
    · split at h
      · exact Option.noConfusion h
      · split at h
        · split at h
          · exact Option.noConfusion h
          · rename_i r0 hppe
            rw [ih _ _ _ _ _ _ h, List.countP_append,
              ppe_countP p hp _ _ _ _ _ _ _ hppe, Nat.add_zero]
        · split at h
          · exact Option.noConfusion h
          · rename_i r0 hppe
            rw [ih _ _ _ _ _ _ h, List.countP_append,
              ppe_countP p hp _ _ _ _ _ _ _ hppe, Nat.add_zero]
        · exact ih _ _ _ _ _ _ h
        · exact ih _ _ _ _ _ _ h
    · exact ih _ _ _ _ _ _ h

lemma pni_events_targets (wm : WidgetManager) (current : Index) (depth : Int) :
    ∀ (inputs : List InputEvent) (disp : EventDispatcher) (states : StatesMap)
      (evs : List Event) (enter did : Bool) (r : NodeProcessResult),
      process_node_inputs wm current depth inputs disp states evs enter did = some r →
      ∀ e ∈ r.events, e ∈ evs ∨ e.target = current := by
  intro inputs
  induction inputs with
  | nil =>
    intro disp states evs enter did r h
    simp only [process_node_inputs] at h
    cases h
    exact fun e he => Or.inl he
  | cons input rest ih =>
    intro disp states evs enter did r h
    simp only [process_node_inputs] at h
    split at h
    · split at h
      · exact Option.noConfusion h
      · split at h
        · split at h
          · exact Option.noConfusion h
          · rename_i r0 hppe
            intro e he
            rcases ih _ _ _ _ _ _ h e he with hin | htgt
            · rcases List.mem_append.mp hin with h1 | h2
              · exact Or.inl h1
              · exact Or.inr (ppe_events_shape _ _ _ _ _ _ _ hppe e h2).1
            · exact Or.inr htgt
        · split at h
          · exact Option.noConfusion h
          · rename_i r0 hppe
            intro e he
            rcases ih _ _ _ _ _ _ h e he with hin | htgt
            · rcases List.mem_append.mp hin with h1 | h2
              · exact Or.inl h1
              · exact Or.inr (ppe_events_shape _ _ _ _ _ _ _ hppe e h2).1
            · exact Or.inr htgt
        · exact ih _ _ _ _ _ _ h
        · exact ih _ _ _ _ _ _ h
    · exact ih _ _ _ _ _ _ h

lemma pni_states_nodup (wm : WidgetManager) (current : Index) (depth : Int) :
    ∀ (inputs : List InputEvent) (disp : EventDispatcher) (states : StatesMap)
      (evs : List Event) (enter did : Bool) (r : NodeProcessResult),
      process_node_inputs wm current depth inputs disp states evs enter did = some r →
      (states.map Prod.fst).Nodup → (r.states.map Prod.fst).Nodup := by
  intro inputs
  induction inputs with
  | nil =>
    intro disp states evs enter did r h hn
    simp only [process_node_inputs] at h
    cases h
    exact hn
  | cons input rest ih =>
    intro disp states evs enter did r h hn
    simp only [process_node_inputs] at h
    split at h
    · split at h
      · exact Option.noConfusion h
      · split at h
        · split at h
          · exact Option.noConfusion h
          · rename_i r0 hppe
            exact ih _ _ _ _ _ _ h (ppe_states_nodup _ _ _ _ _ _ _ hppe hn)
        · split at h
          · exact Option.noConfusion h
          · rename_i r0 hppe
            exact ih _ _ _ _ _ _ h (ppe_states_nodup _ _ _ _ _ _ _ hppe hn)
        · exact ih _ _ _ _ _ _ h hn
        · exact ih _ _ _ _ _ _ h hn
    · exact ih _ _ _ _ _ _ h hn

lemma pni_bests_in (wm : WidgetManager) (current : Index) (depth : Int) (S : Index → Prop)
    (hS : S current) :
    ∀ (inputs : List InputEvent) (disp : EventDispatcher) (states : StatesMap)
      (evs : List Event) (enter did : Bool) (r : NodeProcessResult),
      process_node_inputs wm current depth inputs disp states evs enter did = some r →
      states_bests_in S states → states_bests_in S r.states := by
  intro inputs
  induction inputs with
  | nil =>
    intro disp states evs enter did r h hb
    simp only [process_node_inputs] at h
    cases h
    exact hb
  | cons input rest ih =>
    intro disp states evs enter did r h hb
    simp only [process_node_inputs] at h
    split at h
    · split at h
      · exact Option.noConfusion h
      · split at h
        · split at h
          · exact Option.noConfusion h
          · rename_i r0 hppe
            exact ih _ _ _ _ _ _ h (ppe_bests_in S _ _ _ _ _ _ _ hppe hS hb)
        · split at h
          · exact Option.noConfusion h
          · rename_i r0 hppe
            exact ih _ _ _ _ _ _ h (ppe_bests_in S _ _ _ _ _ _ _ hppe hS hb)
        · exact ih _ _ _ _ _ _ h hb
        · exact ih _ _ _ _ _ _ h hb
    · exact ih _ _ _ _ _ _ h hb

lemma pni_none (wm : WidgetManager) (current : Index) (depth : Int)
    (hpe : resolve_pointer_events wm current = some PointerEvents.None) :
    ∀ (inputs : List InputEvent) (disp : EventDispatcher) (states : StatesMap)
      (evs : List Event) (enter did : Bool),
      process_node_inputs wm current depth inputs disp states evs enter did =
        some ⟨disp, states, evs,
              enter && !(inputs.any fun i => decide (i.category = InputEventCategory.Mouse)),
              did⟩ := by
  intro inputs
  induction inputs with
  | nil =>
    intro disp states evs enter did
    simp [process_node_inputs]
  | cons input rest ih =>
    intro disp states evs enter did
    by_cases hm : input.category = InputEventCategory.Mouse
    · simp only [process_node_inputs]
      rw [if_pos hm, hpe]
      dsimp only
      rw [ih disp states evs false did]
      simp [List.any_cons, hm]
    · simp only [process_node_inputs]
      rw [if_neg hm]
      rw [ih disp states evs enter did]
      simp [List.any_cons, hm]

lemma pni_children_only (wm : WidgetManager) (current : Index) (depth : Int)
    (hpe : resolve_pointer_events wm current = some PointerEvents.ChildrenOnly) :
    ∀ (inputs : List InputEvent) (disp : EventDispatcher) (states : StatesMap)
      (evs : List Event) (enter did : Bool),
      process_node_inputs wm current depth inputs disp states evs enter did =
        some ⟨disp, states, evs, enter, did⟩ := by
  intro inputs
  induction inputs with
  | nil =>
    intro disp states evs enter did
    simp [process_node_inputs]
  | cons input rest ih =>
    intro disp states evs enter did
    by_cases hm : input.category = InputEventCategory.Mouse
    · simp only [process_node_inputs]
      rw [if_pos hm, hpe]
      dsimp only
      exact ih disp states evs enter did
    · simp only [process_node_inputs]
      rw [if_neg hm]
      exact ih disp states evs enter did

lemma pni_all_flags (wm : WidgetManager) (current : Index) (depth : Int)
    (hpe : resolve_pointer_events wm current = some PointerEvents.All) :
    ∀ (inputs : List InputEvent) (disp : EventDispatcher) (states : StatesMap)
      (evs : List Event) (enter did : Bool) (r : NodeProcessResult),
      process_node_inputs wm current depth inputs disp states evs enter did = some r →
      r.enter_children = enter ∧
        r.did_process =
          (did || inputs.any fun i => decide (i.category = InputEventCategory.Mouse)) := by
  intro inputs
  induction inputs with
  | nil =>
    intro disp states evs enter did r h
    simp only [process_node_inputs] at h
    cases h
    exact ⟨rfl, by simp⟩
  | cons input rest ih =>
    intro disp states evs enter did r h
    by_cases hm : input.category = InputEventCategory.Mouse
    · simp only [process_node_inputs] at h
      rw [if_pos hm, hpe] at h
      dsimp only at h
      split at h
      · exact Option.noConfusion h
      · obtain ⟨h1, h2⟩ := ih _ _ _ _ _ _ h
        exact ⟨h1, by simp [List.any_cons, hm, h2]⟩
    · simp only [process_node_inputs] at h
      rw [if_neg hm] at h
      obtain ⟨h1, h2⟩ := ih _ _ _ _ _ _ h
      exact ⟨h1, by simp [List.any_cons, hm, h2]⟩

lemma pni_self_only_flags (wm : WidgetManager) (current : Index) (depth : Int)
    (hpe : resolve_pointer_events wm current = some PointerEvents.SelfOnly) :
    ∀ (inputs : List InputEvent) (disp : EventDispatcher) (states : StatesMap)
      (evs : List Event) (enter did : Bool) (r : NodeProcessResult),
      process_node_inputs wm current depth inputs disp states evs enter did = some r →
      r.enter_children =
          (enter && !(inputs.any fun i => decide (i.category = InputEventCategory.Mouse))) ∧
        r.did_process =
          (did || inputs.any fun i => decide (i.category = InputEventCategory.Mouse)) := by
  intro inputs
  induction inputs with
  | nil =>
    intro disp states evs enter did r h
    simp only [process_node_inputs] at h
    cases h
    exact ⟨by simp, by simp⟩
  | cons input rest ih =>
    intro disp states evs enter did r h
    by_cases hm : input.category = InputEventCategory.Mouse
    · simp only [process_node_inputs] at h
      rw [if_pos hm, hpe] at h
      dsimp only at h
      split at h
      · exact Option.noConfusion h
      · obtain ⟨h1, h2⟩ := ih _ _ _ _ _ _ h
        exact ⟨by simp [List.any_cons, hm, h1], by simp [List.any_cons, hm, h2]⟩
    · simp only [process_node_inputs] at h
      rw [if_neg hm] at h
      obtain ⟨h1, h2⟩ := ih _ _ _ _ _ _ h
      exact ⟨by simp [List.any_cons, hm, h1], by simp [List.any_cons, hm, h2]⟩

lemma walk_countP (wm : WidgetManager) (inputs : List InputEvent) (p : Event → Bool)
    (hp : ∀ e, (e.event_type = EventType.MouseIn ∨ e.event_type = EventType.MouseOut ∨
        e.event_type = EventType.MouseDown ∨ e.event_type = EventType.MouseUp) → p e = false) :
    ∀ (fuel : Nat) (stack : List (Index × Int)) (disp : EventDispatcher) (states : StatesMap)
      (stream : List Event) (processed : List Index) (res : WalkResult),
      build_walk wm inputs fuel stack disp states stream processed = some res →
      res.stream.countP p = stream.countP p := by
  intro fuel
  induction fuel with
  | zero =>
    intro stack disp states stream processed res h
    cases stack with
    | nil => simp only [build_walk] at h; cases h; rfl
    | cons head rest => exact Option.noConfusion h
  | succ f ih =>
    intro stack disp states stream processed res h
    cases stack with
    | nil => simp only [build_walk] at h; cases h; rfl
    | cons head rest =>
      obtain ⟨current, depth⟩ := head
      simp only [build_walk] at h
      split at h
      · exact Option.noConfusion h
      · rename_i r0 hpni
        rw [ih _ _ _ _ _ _ h, List.countP_append,
          pni_countP wm current depth p hp _ _ _ _ _ _ _ hpni]
        simp

lemma walk_states_nodup (wm : WidgetManager) (inputs : List InputEvent) :
    ∀ (fuel : Nat) (stack : List (Index × Int)) (disp : EventDispatcher) (states : StatesMap)
      (stream : List Event) (processed : List Index) (res : WalkResult),
      build_walk wm inputs fuel stack disp states stream processed = some res →
      (states.map Prod.fst).Nodup → (res.states.map Prod.fst).Nodup := by
  intro fuel
  induction fuel with
  | zero =>
    intro stack disp states stream processed res h hn
    cases stack with
    | nil => simp only [build_walk] at h; cases h; exact hn
    | cons head rest => exact Option.noConfusion h
  | succ f ih =>
    intro stack disp states stream processed res h hn
    cases stack with
    | nil => simp only [build_walk] at h; cases h; exact hn
    | cons head rest =>
      obtain ⟨current, depth⟩ := head
      simp only [build_walk] at h
      split at h
      · exact Option.noConfusion h
      · rename_i r0 hpni
        exact ih _ _ _ _ _ _ h (pni_states_nodup wm current depth _ _ _ _ _ _ _ hpni hn)

lemma mem_push_children (wm : WidgetManager) (current : Index) (depth : Int)
    (rest : List (Index × Int)) (x : Index × Int) (hx : x ∈ push_children wm current depth rest) :
    x ∈ rest ∨ ∃ cs, wm.children current = some cs ∧ ∃ c, c ∈ cs ∧ x = (c, depth + 1) := by
  have key : ∀ (l : List Index) (acc : List (Index × Int)),
      x ∈ l.foldl (fun s c => (c, depth + 1) :: s) acc →
      x ∈ acc ∨ ∃ c, c ∈ l ∧ x = (c, depth + 1) := by
    intro l
    induction l with
    | nil => exact fun acc h => Or.inl h
    | cons c l2 ihl =>
      intro acc h
      rcases ihl _ h with hacc | ⟨c2, hc2, rfl⟩
      · rcases List.mem_cons.mp hacc with rfl | h2
        · exact Or.inr ⟨c, List.mem_cons_self _ _, rfl⟩
        · exact Or.inl h2
      · exact Or.inr ⟨c2, List.mem_cons_of_mem _ hc2, rfl⟩
  unfold push_children at hx
  split at hx
  · rename_i cs hch
    rcases key cs rest hx with h1 | h2
    · exact Or.inl h1
    · exact Or.inr ⟨cs, hch, h2⟩
  · exact Or.inl hx

lemma build_walk_excludes (wm : WidgetManager) (inputs : List InputEvent) (D : Index → Prop)
    (n : Index)
    (hNone : resolve_pointer_events wm n = some PointerEvents.None)
    (hany : (inputs.any fun i => decide (i.category = InputEventCategory.Mouse)) = true)
    (hclosed : ∀ p cs c, wm.children p = some cs → c ∈ cs → D c → p = n ∨ D p)
    (hnD : ¬ D n) :
    ∀ (fuel : Nat) (stack : List (Index × Int)) (disp : EventDispatcher) (states : StatesMap)
      (stream : List Event) (processed : List Index) (res : WalkResult),
      (∀ x ∈ stack, ¬ D x.1) →
      (∀ m ∈ processed, ¬ D m ∧ m ≠ n) →
      (∀ e ∈ stream, ¬ D e.target ∧ e.target ≠ n) →
      states_bests_in (fun m => ¬ D m ∧ m ≠ n) states →
      build_walk wm inputs fuel stack disp states stream processed = some res →
      (∀ m ∈ res.processed, ¬ D m ∧ m ≠ n) ∧
      (∀ e ∈ res.stream, ¬ D e.target ∧ e.target ≠ n) ∧
      states_bests_in (fun m => ¬ D m ∧ m ≠ n) res.states := by
  intro fuel
  induction fuel with
  | zero =>
    intro stack disp states stream processed res hstack hproc hstream hstates h
    cases stack with
    | nil => simp only [build_walk] at h; cases h; exact ⟨hproc, hstream, hstates⟩
    | cons head rest => exact Option.noConfusion h
  | succ f ih =>
    intro stack disp states stream processed res hstack hproc hstream hstates h
    cases stack with
    | nil => simp only [build_walk] at h; cases h; exact ⟨hproc, hstream, hstates⟩
    | cons head rest =>
      obtain ⟨current, depth⟩ := head
      have hcur : ¬ D current := hstack (current, depth) (List.mem_cons_self _ _)
      have hrest : ∀ x ∈ rest, ¬ D x.1 :=
        fun x hx => hstack x (List.mem_cons_of_mem _ hx)
      simp only [build_walk] at h
      split at h
      · exact Option.noConfusion h
      · rename_i r0 hpni
        by_cases hcn : current = n
        · subst hcn
          rw [pni_none wm current depth hNone inputs disp states [] true false] at hpni
          cases hpni
          simp only [hany, Bool.not_true, Bool.and_false, Bool.false_eq_true, if_false,
            List.append_nil] at h
          exact ih _ _ _ _ _ _ hrest hproc hstream hstates h
        · have hS : ¬ D current ∧ current ≠ n := ⟨hcur, hcn⟩
          have hstream1 : ∀ e ∈ stream ++ r0.events, ¬ D e.target ∧ e.target ≠ n := by
            intro e he
            rcases List.mem_append.mp he with h1 | h2
            · exact hstream e h1
            · rcases pni_events_targets wm current depth inputs disp states [] true false r0
                hpni e h2 with h3 | h3
              · cases h3
              · rw [h3]; exact hS
          have hstates1 : states_bests_in (fun m => ¬ D m ∧ m ≠ n) r0.states :=
            pni_bests_in wm current depth _ hS inputs disp states [] true false r0 hpni hstates
          have hproc1 : ∀ m ∈ (if r0.did_process then processed ++ [current] else processed),
              ¬ D m ∧ m ≠ n := by
            intro m hm
            split at hm
            · rcases List.mem_append.mp hm with h1 | h2
              · exact hproc m h1
              · rw [List.mem_singleton] at h2; subst h2; exact hS
            · exact hproc m hm
          have hstack1 : ∀ x ∈ (if r0.enter_children then push_children wm current depth rest
              else rest), ¬ D x.1 := by
            intro x hx
            split at hx
            · rcases mem_push_children wm current depth rest x hx with h1 | ⟨cs, hcs, c, hc, rfl⟩
              · exact hrest x h1
              · intro hDc
                rcases hclosed current cs c hcs hc hDc with rfl | hDcur
                · exact hcn rfl
                · exact hcur hDcur
            · exact hrest x hx
          exact ih _ _ _ _ _ _ hstack1 hproc1 hstream1 hstates1 h

lemma kb_all_mem (wm : WidgetManager) :
    ∀ (inputs : List InputEvent) (disp : EventDispatcher) (stream : List Event) (e : Event),
      e ∈ (process_keyboard_all wm inputs disp stream).2 →
      e ∈ stream ∨ e.event_type.event_category = EventCategory.Keyboard := by
  intro inputs
  induction inputs with
  | nil => exact fun disp stream e he => Or.inl he
  | cons input rest ih =>
    intro disp stream e he
    simp only [process_keyboard_all] at he
    rcases ih _ _ _ he with h1 | h2
    · rcases List.mem_append.mp h1 with ha | hb
      · exact Or.inl ha
      · exact Or.inr (kb_events_category disp input wm e hb)
    · exact Or.inr h2

lemma kb_all_countP (wm : WidgetManager) (p : Event → Bool)
    (hp : ∀ e, e.event_type.event_category = EventCategory.Keyboard → p e = false) :
    ∀ (inputs : List InputEvent) (disp : EventDispatcher) (stream : List Event),
      ((process_keyboard_all wm inputs disp stream).2).countP p = stream.countP p := by
  intro inputs
  induction inputs with
  | nil => exact fun disp stream => rfl
  | cons input rest ih =>
    intro disp stream
    simp only [process_keyboard_all]
    rw [ih, List.countP_append]
    have hz : ((process_keyboard_events disp input wm).2).countP p = 0 := by
      rw [List.countP_eq_zero]
      intro e he
      simp [hp e (kb_events_category disp input wm e he)]
    rw [hz, Nat.add_zero]

lemma additional_mem (e : Event) :
    ∀ (states : StatesMap) (wm : WidgetManager) (stream : List Event) (had : Bool),
      e ∈ (additional_events wm states stream had).2.1 →
      e ∈ stream ∨
        (∃ t s m, (t, s) ∈ states ∧ s.best_match = some m ∧ e = Event.new m t) ∨
        e.event_type = EventType.Blur := by
  intro states
  induction states with
  | nil => exact fun wm stream had he => Or.inl he
  | cons p rest ih =>
    intro wm stream had he
    obtain ⟨t, s⟩ := p
    simp only [additional_events] at he
    cases hbm : s.best_match with
    | none =>
      rw [hbm] at he
      dsimp only at he
      rcases ih _ _ _ he with h1 | h2 | h3
      · exact Or.inl h1
      · rcases h2 with ⟨t2, s2, m2, hmem, hb, heq⟩
        exact Or.inr (Or.inl ⟨t2, s2, m2, List.mem_cons_of_mem _ hmem, hb, heq⟩)
      · exact Or.inr (Or.inr h3)
    | some node =>
      rw [hbm] at he
      dsimp only at he
      have hpush : ∀ (stream2 : List Event),
          (∀ x ∈ stream2, x ∈ stream ∨ x = Event.new node t ∨
            x.event_type = EventType.Blur) →
          ∀ (wm2 : WidgetManager) (had2 : Bool),
          e ∈ (additional_events wm2 rest stream2 had2).2.1 →
          e ∈ stream ∨
            (∃ t2 s2 m2, (t2, s2) ∈ (t, s) :: rest ∧ s2.best_match = some m2 ∧
              e = Event.new m2 t2) ∨
            e.event_type = EventType.Blur := by
        intro stream2 hs2 wm2 had2 he2
        rcases ih _ _ _ he2 with h1 | h2 | h3
        · rcases hs2 e h1 with ha | hb | hc
          · exact Or.inl ha
          · exact Or.inr (Or.inl ⟨t, s, node, List.mem_cons_self _ _, hbm, hb⟩)
          · exact Or.inr (Or.inr hc)
        · rcases h2 with ⟨t2, s2, m2, hmem, hb, heq⟩
          exact Or.inr (Or.inl ⟨t2, s2, m2, List.mem_cons_of_mem _ hmem, hb, heq⟩)
        · exact Or.inr (Or.inr h3)
      cases t
      case Focus =>
        dsimp only at he
        revert he
        split
        · split
          · intro he
            refine hpush _ ?_ _ _ he
            intro x hx
            rcases List.mem_append.mp hx with hx1 | hx2
            · rcases List.mem_append.mp hx1 with hy1 | hy2
              · exact Or.inl hy1
              · rw [List.mem_singleton] at hy2; exact Or.inr (Or.inl hy2)
            · rw [List.mem_singleton] at hx2; subst hx2
              exact Or.inr (Or.inr rfl)
          · intro he
            refine hpush _ ?_ _ _ he
            intro x hx
            rcases List.mem_append.mp hx with hx1 | hx2
            · exact Or.inl hx1
            · rw [List.mem_singleton] at hx2; exact Or.inr (Or.inl hx2)
        · intro he
          refine hpush _ ?_ _ _ he
          intro x hx
          rcases List.mem_append.mp hx with hx1 | hx2
          · exact Or.inl hx1
          · rw [List.mem_singleton] at hx2; exact Or.inr (Or.inl hx2)
      all_goals
        (dsimp only at he
         refine hpush _ ?_ _ _ he
         intro x hx
         rcases List.mem_append.mp hx with hx1 | hx2
         · exact Or.inl hx1
         · rw [List.mem_singleton] at hx2; exact Or.inr (Or.inl hx2))

lemma additional_countP (k : EventType) (hkb : k ≠ EventType.Blur) :
    ∀ (states : StatesMap) (wm : WidgetManager) (stream : List Event) (had : Bool),
      ((additional_events wm states stream had).2.1.countP
          (fun e => decide (e.event_type = k))) ≤
        stream.countP (fun e => decide (e.event_type = k)) +
          states.countP (fun q => decide (q.1 = k)) := by
  intro states
  induction states with
  | nil =>
    intro wm stream had
    simp [additional_events]
  | cons p rest ih =>
    intro wm stream had
    obtain ⟨t, s⟩ := p
    simp only [additional_events]
    cases hbm : s.best_match with
    | none =>
      dsimp only
      refine le_trans (ih wm stream had) ?_
      rw [List.countP_cons]
      omega
    | some node =>
      dsimp only
      have hsingle : ∀ (stream0 : List Event),
          (stream0 ++ [Event.new node t]).countP (fun e => decide (e.event_type = k)) =
            stream0.countP (fun e => decide (e.event_type = k)) +
              (if t = k then 1 else 0) := by
        intro stream0
        rw [List.countP_append]
        simp [List.countP_cons, Event.new]
      have hblur : ∀ (stream0 : List Event) (cf : Index),
          (stream0 ++ [Event.new cf EventType.Blur]).countP
              (fun e => decide (e.event_type = k)) =
            stream0.countP (fun e => decide (e.event_type = k)) := by
        intro stream0 cf
        rw [List.countP_append]
        have : k ≠ EventType.Blur := hkb
        simp [List.countP_cons, Event.new, Ne.symm this]
      cases t
      case Focus =>
        dsimp only
        split
        · split
          · refine le_trans (ih _ _ _) ?_
            rw [hblur, hsingle, List.countP_cons]
            simp only [decide_eq_true_eq]
            omega
          · refine le_trans (ih _ _ _) ?_
            rw [hsingle, List.countP_cons]
            simp only [decide_eq_true_eq]
            omega
        · refine le_trans (ih _ _ _) ?_
          rw [hsingle, List.countP_cons]
          simp only [decide_eq_true_eq]
          omega
      all_goals
        (dsimp only
         refine le_trans (ih _ _ _) ?_
         rw [hsingle, List.countP_cons]
         simp only [decide_eq_true_eq]
         omega)

lemma nodup_states_countP_le_one (k : EventType) :
    ∀ (states : StatesMap), (states.map Prod.fst).Nodup →
      states.countP (fun q => decide (q.1 = k)) ≤ 1 := by
  intro states
  induction states with
  | nil => intro _; simp
  | cons p rest ih =>
    intro hn
    rw [List.map_cons, List.nodup_cons] at hn
    rw [List.countP_cons]
    by_cases hk : p.1 = k
    · have hz : rest.countP (fun q => decide (q.1 = k)) = 0 := by
        rw [List.countP_eq_zero]
        intro q hq
        simp only [decide_eq_true_eq]
        intro hqk
        apply hn.1
        rw [← hk, ← hqk] at *
        exact hqk ▸ List.mem_map_of_mem Prod.fst hq
      simp [hz, hk]
    · simp only [hk, decide_eq_true_eq, if_false]
      have := ih hn.2
      omega

/-- C1: in every completed event-stream construction cycle, at most one
event each of kind Focus, Hover, and Click appears in the cycle's event
stream — the per-kind best-match states map holds at most one entry per
kind (unique keys), each entry resolves to at most one winning node, and
no other phase of the cycle emits events of these kinds. -/
theorem C1_best_match_unique (fuel : Nat) (disp : EventDispatcher)
    (inputs : List InputEvent) (wm : WidgetManager) (res : BuildResult) (k : EventType)
    (hb : build_event_stream fuel disp inputs wm = some res)
    (hk : k = EventType.Focus ∨ k = EventType.Hover ∨ k = EventType.Click) :
    res.stream.countP (fun e => decide (e.event_type = k)) ≤ 1 := by
  have hk4 : ∀ e : Event,
      (e.event_type = EventType.MouseIn ∨ e.event_type = EventType.MouseOut ∨
       e.event_type = EventType.MouseDown ∨ e.event_type = EventType.MouseUp) →
      (fun e => decide (e.event_type = k)) e = false := by
    intro e he
    rcases hk with rfl | rfl | rfl <;> rcases he with h | h | h | h <;> simp [h]
  have hkkb : ∀ e : Event, e.event_type.event_category = EventCategory.Keyboard →
      (fun e => decide (e.event_type = k)) e = false := by
    intro e he
    rcases hk with rfl | rfl | rfl <;>
      (cases het : e.event_type <;> simp_all [EventType.event_category])
  have hkblur : k ≠ EventType.Blur := by
    rcases hk with rfl | rfl | rfl <;> simp
  unfold build_event_stream at hb
  cases hroot : wm.root_node with
  | none =>
    rw [hroot] at hb
    cases hb
    simp
  | some root =>
    rw [hroot] at hb
    dsimp only at hb
    split at hb
    · exact Option.noConfusion hb
    · rename_i w hwalk
      have hwcount : w.stream.countP (fun e => decide (e.event_type = k)) = 0 :=
        walk_countP wm inputs _ hk4 fuel _ _ _ _ _ w hwalk
      have hwnodup : (w.states.map Prod.fst).Nodup :=
        walk_states_nodup wm inputs fuel _ _ _ _ _ w hwalk (by simp)
      have hbound : ((additional_events wm w.states
          (process_keyboard_all wm inputs w.dispatcher w.stream).2 false).2.1).countP
            (fun e => decide (e.event_type = k)) ≤ 1 := by
        refine le_trans (additional_countP k hkblur w.states wm _ false) ?_
        rw [kb_all_countP wm _ hkkb inputs w.dispatcher w.stream, hwcount]
        have := nodup_states_countP_le_one k w.states hwnodup
        omega
      cases hb
      dsimp only
      split
      · split
        · have hzb : ∀ cf : Index, ([Event.new cf EventType.Blur]).countP
              (fun e => decide (e.event_type = k)) = 0 := by
            intro cf
            simp [List.countP_cons, Event.new, Ne.symm hkblur]
          rw [List.countP_append, hzb _, Nat.add_zero]
          exact hbound
        · exact hbound
      · exact hbound

/-- C1 witness: a pointer-move cycle over the one-node scene resolves at
most one Hover event. -/
theorem C1_witness :
    ∃ res, build_event_stream 2 EventDispatcher.new [InputEvent.MouseMoved (1, 1)] wm_single =
      some res ∧
      res.stream.countP (fun e => decide (e.event_type = EventType.Hover)) ≤ 1 := by
  have hs : (build_event_stream 2 EventDispatcher.new [InputEvent.MouseMoved (1, 1)]
      wm_single).isSome = true := by decide
  obtain ⟨res, hres⟩ := Option.isSome_iff_exists.mp hs
  exact ⟨res, hres, C1_best_match_unique 2 EventDispatcher.new [InputEvent.MouseMoved (1, 1)]
    wm_single res EventType.Hover hres (Or.inr (Or.inl rfl))⟩

/-- C7: per popped node in the Phase 1 tree walk (started with
enter_children true, nothing processed, no events yet): a None policy
skips pointer processing entirely and, as soon as any mouse-category
input is in the tick, blocks descent; ChildrenOnly never processes the
node itself but always descends; SelfOnly processes the node exactly when
a mouse input is present and blocks descent for it; All processes the
node exactly when a mouse input is present and always descends. And for
any completed cycle: if node n resolves to None, a mouse input is
present, and D is a set of nodes reachable only through n (closed under
the tree's child links, excluding n and the root), then no node of D and
not n itself is ever processed, and every event of the cycle's stream in
the Mouse category targets a node outside D and different from n — the
whole subtree receives zero pointer events regardless of rectangle
overlap. -/
theorem C7_pointer_events_policy :
    (∀ (wm : WidgetManager) (current : Index) (depth : Int) (inputs : List InputEvent)
        (disp : EventDispatcher) (states : StatesMap),
      resolve_pointer_events wm current = some PointerEvents.None →
      process_node_inputs wm current depth inputs disp states [] true false =
        some ⟨disp, states, [],
          !(inputs.any fun i => decide (i.category = InputEventCategory.Mouse)), false⟩)
    ∧ (∀ (wm : WidgetManager) (current : Index) (depth : Int) (inputs : List InputEvent)
        (disp : EventDispatcher) (states : StatesMap),
        resolve_pointer_events wm current = some PointerEvents.ChildrenOnly →
        process_node_inputs wm current depth inputs disp states [] true false =
          some ⟨disp, states, [], true, false⟩)
    ∧ (∀ (wm : WidgetManager) (current : Index) (depth : Int) (inputs : List InputEvent)
        (disp : EventDispatcher) (states : StatesMap) (r : NodeProcessResult),
        resolve_pointer_events wm current = some PointerEvents.SelfOnly →
        process_node_inputs wm current depth inputs disp states [] true false = some r →
        r.did_process = (inputs.any fun i => decide (i.category = InputEventCategory.Mouse)) ∧
          r.enter_children =
            !(inputs.any fun i => decide (i.category = InputEventCategory.Mouse)))
    ∧ (∀ (wm : WidgetManager) (current : Index) (depth : Int) (inputs : List InputEvent)
        (disp : EventDispatcher) (states : StatesMap) (r : NodeProcessResult),
        resolve_pointer_events wm current = some PointerEvents.All →
        process_node_inputs wm current depth inputs disp states [] true false = some r →
        r.did_process = (inputs.any fun i => decide (i.category = InputEventCategory.Mouse)) ∧
          r.enter_children = true)
    ∧ (∀ (fuel : Nat) (disp : EventDispatcher) (inputs : List InputEvent)
        (wm : WidgetManager) (res : BuildResult) (D : Index → Prop) (n root : Index),
        build_event_stream fuel disp inputs wm = some res →
        wm.root_node = some root → ¬ D root →
        resolve_pointer_events wm n = some PointerEvents.None →
        (∃ i, i ∈ inputs ∧ i.category = InputEventCategory.Mouse) →
        ¬ D n →
        (∀ p cs c, wm.children p = some cs → c ∈ cs → D c → p = n ∨ D p) →
        (∀ m ∈ res.processed, ¬ D m ∧ m ≠ n) ∧
          (∀ e ∈ res.stream, e.event_type.event_category = EventCategory.Mouse →
            ¬ D e.target ∧ e.target ≠ n)) := by
  refine ⟨?_, ?_, ?_, ?_, ?_⟩
  · intro wm current depth inputs disp states hpe
    rw [pni_none wm current depth hpe inputs disp states [] true false]
    simp
  · intro wm current depth inputs disp states hpe
    exact pni_children_only wm current depth hpe inputs disp states [] true false
  · intro wm current depth inputs disp states r hpe h
    have h2 := pni_self_only_flags wm current depth hpe inputs disp states [] true false r h
    exact ⟨by simpa using h2.2, by simpa using h2.1⟩
  · intro wm current depth inputs disp states r hpe h
    have := pni_all_flags wm current depth hpe inputs disp states [] true false r h
    exact ⟨by simpa using this.2, this.1⟩
  · intro fuel disp inputs wm res D n root hb hroot hrootD hNone hmouse hnD hclosed
    obtain ⟨i0, hi0, hcat0⟩ := hmouse
    have hany : (inputs.any fun i => decide (i.category = InputEventCategory.Mouse)) = true :=
      List.any_eq_true.mpr ⟨i0, hi0, by simp [hcat0]⟩
    unfold build_event_stream at hb
    rw [hroot] at hb
    dsimp only at hb
    split at hb
    · exact Option.noConfusion hb
    · rename_i w hwalk
      have hwalkinv := build_walk_excludes wm inputs D n hNone hany hclosed hnD fuel
        [(root, 0)] _ [] [] [] w
        (by intro x hx; rw [List.mem_singleton] at hx; subst hx; exact hrootD)
        (by intro m hm; cases hm)
        (by intro e he; cases he)
        (by intro p hp m hm; cases hp)
        hwalk
      cases hb
      dsimp only
      constructor
      · exact hwalkinv.1
      · intro e he hcat
        -- e is in the post/blur-extended stream
        have hmem : e ∈ (additional_events wm w.states
            (process_keyboard_all wm inputs w.dispatcher w.stream).2 false).2.1 ∨
            e.event_type = EventType.Blur := by
          revert he
          split
          · split
            · intro he
              rcases List.mem_append.mp he with h1 | h2
              · exact Or.inl h1
              · rw [List.mem_singleton] at h2
                subst h2
                exact Or.inr rfl
            · exact fun he => Or.inl he
          · exact fun he => Or.inl he
        rcases hmem with hmem | hblur
        · rcases additional_mem e w.states wm _ false hmem with h1 | h2 | h3
          · rcases kb_all_mem wm inputs w.dispatcher w.stream e h1 with hw | hkbcat
            · exact hwalkinv.2.1 e hw
            · rw [hkbcat] at hcat
              cases hcat
          · rcases h2 with ⟨t2, s2, m2, hmem2, hbm2, rfl⟩
            exact hwalkinv.2.2 (t2, s2) hmem2 m2 hbm2
          · rw [h3] at hcat
            cases hcat
        · rw [hblur] at hcat
          cases hcat

/-- C7 witness: in the chain 0 → 1 → 2 with node 1 set to None, a
pointer-move cycle never processes node 1 or its descendant 2, although
all three nodes overlap the same rectangle. -/
theorem C7_witness :
    ∃ res, build_event_stream 3 EventDispatcher.new [InputEvent.MouseMoved (1, 1)]
        wm_blocked = some res ∧ (∀ m ∈ res.processed, ¬ m = 2 ∧ m ≠ 1) := by
  have hs : (build_event_stream 3 EventDispatcher.new [InputEvent.MouseMoved (1, 1)]
      wm_blocked).isSome = true := by decide
  obtain ⟨res, hres⟩ := Option.isSome_iff_exists.mp hs
  have hclosed : ∀ p cs c, wm_blocked.children p = some cs → c ∈ cs → c = 2 →
      p = 1 ∨ p = 2 := by
    intro p cs c hcs hc hD
    subst hD
    by_cases h0 : p = 0
    · subst h0
      have h01 : wm_blocked.children 0 = some [1] := rfl
      rw [h01, Option.some.injEq] at hcs
      subst hcs
      simp at hc
    · by_cases h1 : p = 1
      · exact Or.inl h1
      · have hemp : wm_blocked.children p = some [] := by
          simp [wm_blocked, h0, h1]
        rw [hemp, Option.some.injEq] at hcs
        subst hcs
        cases hc
  have hmain := C7_pointer_events_policy.2.2.2.2 3 EventDispatcher.new
    [InputEvent.MouseMoved (1, 1)] wm_blocked res (fun m => m = 2) 1 0 hres rfl
    (by simp) rfl ⟨InputEvent.MouseMoved (1, 1), by simp, rfl⟩ (by simp) hclosed
  exact ⟨res, hres, hmain.1⟩

end Kayak
